import Mathlib

/-!
Shallow embedding of the `re-tex` crate (TEX texture container codec).

Modelling conventions:
* a byte is `Fin 256`; a buffer is `List Byte`; all integers are little-endian
  in the byte stream, mirroring the `byteorder::LE` reads/writes of the source;
* `io::Read` state is passed explicitly: a reader function takes the remaining
  input `List Byte` and returns the parsed value together with the rest;
* fallible code returns `Except Fail _`; `Fail.err` carries the crate's
  `Error` enum, `Fail.crash` models a Rust panic (out-of-range slice,
  overflowing checked arithmetic, the explicit `panic!` in `gdf.rs`);
* the external gdeflate entropy decoder (an FFI call in the source) is an
  oracle parameter `Decoder`; tile outputs are truncated to the capacity the
  source hands the FFI call.
-/

abbrev Byte := Fin 256

abbrev Bytes := List Byte

/-- Truncating conversion of a natural number to one byte (`as u8`). -/
def Byte.ofNat (n : Nat) : Byte := ⟨n % 256, Nat.mod_lt _ (by decide)⟩

/-- `src/error.rs` + `src/gdf.rs`: decompression error enum. -/
inductive DecompressionError where
  | BadData
  | DecompressorCreationFailed
  | DecompressionFailed
  | InsufficientSpace
  deriving DecidableEq, Repr

/-- `src/gdf.rs`: the gdf module's own error enum (the compression variants
are unreachable from the code the claims touch and are omitted). -/
inductive GdfError where
  | IOError
  | Decompression (e : DecompressionError)
  deriving DecidableEq, Repr

/-- `src/error.rs`: the crate's `Error` enum (variants reachable from the
modelled code). -/
inductive Error where
  | IOError
  | GDeflate (e : GdfError)
  | NotTexFile
  | Internal (msg : String)
  | Unimplemented (msg : String)
  | UnsupportedTexFormat (code : Nat)
  deriving DecidableEq, Repr

/-- Result of running a fallible Rust function: a returned `Err` value or a
panic (which the source can hit on out-of-range slices, overflowing debug
arithmetic, and the explicit `panic!` in `gdf.rs`). -/
inductive Fail where
  | err (e : Error)
  | crash
  deriving DecidableEq, Repr

/-- Sequencing of reader steps (the `?` operator of the source): on success
continue with the value and the remaining input, otherwise propagate. -/
def pbind {α β : Type} (m : Except Fail (α × Bytes)) (k : α → Bytes → Except Fail β) :
    Except Fail β :=
  match m with
  | .error e => .error e
  | .ok (a, s) => k a s

/-- `reader.read_u8()`: one byte, or an IO error when the input is exhausted. -/
def readU8 (s : Bytes) : Except Fail (Nat × Bytes) :=
  match s with
  | [] => .error (.err .IOError)
  | b :: r => .ok (b.val, r)

/-- `reader.read_u16::<LE>()`. -/
def readU16 (s : Bytes) : Except Fail (Nat × Bytes) :=
  match s with
  | b0 :: b1 :: r => .ok (b0.val + 2 ^ 8 * b1.val, r)
  | _ => .error (.err .IOError)

/-- `reader.read_u32::<LE>()`. -/
def readU32 (s : Bytes) : Except Fail (Nat × Bytes) :=
  match s with
  | b0 :: b1 :: b2 :: b3 :: r =>
      .ok (b0.val + 2 ^ 8 * b1.val + 2 ^ 16 * b2.val + 2 ^ 24 * b3.val, r)
  | _ => .error (.err .IOError)

/-- `reader.read_u64::<LE>()`. -/
def readU64 (s : Bytes) : Except Fail (Nat × Bytes) :=
  match s with
  | b0 :: b1 :: b2 :: b3 :: b4 :: b5 :: b6 :: b7 :: r =>
      .ok (b0.val + 2 ^ 8 * b1.val + 2 ^ 16 * b2.val + 2 ^ 24 * b3.val +
        2 ^ 32 * b4.val + 2 ^ 40 * b5.val + 2 ^ 48 * b6.val + 2 ^ 56 * b7.val, r)
  | _ => .error (.err .IOError)

/-- `reader.read_exact(&mut buf)` for a buffer of `n` bytes. -/
def readBytes (n : Nat) (s : Bytes) : Except Fail (Bytes × Bytes) :=
  if n ≤ s.length then .ok (s.take n, s.drop n) else .error (.err .IOError)

/-- `writer.write_u16::<LE>(n)`: two little-endian bytes of `n` (truncated
to 16 bits, as the `u16` argument type does in the source). -/
def encodeU16 (n : Nat) : Bytes :=
  [Byte.ofNat n, Byte.ofNat (n / 2 ^ 8)]

/-- `writer.write_u32::<LE>(n)`. -/
def encodeU32 (n : Nat) : Bytes :=
  [Byte.ofNat n, Byte.ofNat (n / 2 ^ 8), Byte.ofNat (n / 2 ^ 16), Byte.ofNat (n / 2 ^ 24)]

/-- `writer.write_u64::<LE>(n)`. -/
def encodeU64 (n : Nat) : Bytes :=
  [Byte.ofNat n, Byte.ofNat (n / 2 ^ 8), Byte.ofNat (n / 2 ^ 16), Byte.ofNat (n / 2 ^ 24),
    Byte.ofNat (n / 2 ^ 32), Byte.ofNat (n / 2 ^ 40), Byte.ofNat (n / 2 ^ 48),
    Byte.ofNat (n / 2 ^ 56)]

/-- `src/format.rs`: the numeric codes of every `TexFormat` enum variant
(`#[repr(u32)]`, `FromRepr`). -/
def texFormatCodes : List Nat :=
  [0x41, 0x422, 0x423, 0x424, 0x419, 0x41A, 0x41B, 0x41C, 0x41D, 0x41E, 0x41F, 0x420,
    0x421, 0x425, 0x426, 0x427, 0x428, 0x429, 0x42A, 0x401, 0x402, 0x403, 0x404, 0x405,
    0x406, 0x407, 0x408, 0x409, 0x40A, 0x40B, 0x40C, 0x40D, 0x40E, 0x40F, 0x410, 0x411,
    0x412, 0x413, 0x414, 0x415, 0x416, 0x417, 0x418, 0x56, 0x55, 0x5A, 0x57, 0x5B, 0x5C,
    0x58, 0x5D, 0x46, 0x47, 0x48, 0x49, 0x4A, 0x4B, 0x4C, 0x4D, 0x4E, 0x4F, 0x50, 0x51,
    0x52, 0x53, 0x54, 0x5E, 0x5F, 0x60, 0x61, 0x62, 0x63, 0x37, 0x2D, 0x28, 0x14,
    0x7FFFFFFF, 0x45, 0x17, 0x19, 0x18, 0x59, 0x1A, 0x36, 0xA, 0xE, 0xD, 0x9, 0xC, 0xB,
    0x22, 0x26, 0x25, 0x21, 0x24, 0x23, 0x3B, 0x3A, 0x35, 0x39, 0x38, 0x42, 0x2C, 0x2E,
    0x29, 0x15, 0x2, 0x4, 0x1, 0x3, 0x6, 0x8, 0x5, 0x7, 0x10, 0x12, 0xF, 0x11, 0x13,
    0x2B, 0x27, 0x2A, 0x20, 0x1F, 0x1B, 0x1E, 0x1C, 0x1D, 0x44, 0x34, 0x33, 0x30, 0x32,
    0x31, 0x40, 0x3F, 0x3C, 0x3E, 0x3D, 0x43, 0x400, 0x2F, 0x16]

/-- `TexFormat::from_repr`: a format is represented by its `u32` code; lookup
succeeds exactly when the code is one of the enum's discriminants. -/
def TexFormat.from_repr (n : Nat) : Option Nat :=
  if n ∈ texFormatCodes then some n else none

/-- `src/tex.rs` `TexHeader`. Integer fields are kept as `Nat`; the `i32`
field `swizzle_control` is stored as its raw `u32` bit pattern (the only use
in the source is the comparison `== 1`, which coincides on raw bits).
`format` holds the `u32` discriminant of the `TexFormat` variant. -/
structure TexHeader where
  magic : Bytes
  version : Nat
  width : Nat
  height : Nat
  depth : Nat
  mipmap_count : Nat
  tex_count : Nat
  mipmap_header_size : Nat
  format : Nat
  swizzle_control : Nat
  cubemap_marker : Nat
  unkn04 : Nat
  unkn05 : Nat
  null0 : Nat
  swizzle_height_depth : Nat
  swizzle_width : Nat
  null1 : Nat
  seven : Nat
  one : Nat
  deriving DecidableEq, Repr

/-- `TexHeader::MAGIC` = `[0x54, 0x45, 0x58, 0x00]`. -/
def texMagic : Bytes := [0x54, 0x45, 0x58, 0x00]

/-- `MipEntry::SIZE` = `size_of::<MipEntry>()` = 16. -/
def MipEntry.SIZE : Nat := 16

/-- `src/tex.rs` `TexHeader::from_reader`. The two `read_u8` calls are shared
by both version branches (both branches read exactly two bytes); the branch
only decides how the two bytes populate the fields, exactly as in the source.
Fields not read on a path keep `TexHeader::default()`'s zero value. -/
def TexHeader.from_reader (s : Bytes) : Except Fail (TexHeader × Bytes) :=
  pbind (readBytes 4 s) fun magic s =>
  if magic ≠ texMagic then .error (.err .NotTexFile) else
  pbind (readU32 s) fun version s =>
  pbind (readU16 s) fun width s =>
  pbind (readU16 s) fun height s =>
  pbind (readU16 s) fun depth s =>
  pbind (readU8 s) fun cnt0 s =>
  pbind (readU8 s) fun cnt1 s =>
  -- both version branches read exactly two bytes; the branch decides whether
  -- they are (tex_count, mipmap_header_size) with mipmap_count derived, or
  -- (mipmap_count, tex_count) directly
  pbind (readU32 s) fun format_var s =>
  match TexFormat.from_repr format_var with
  | none => .error (.err (.UnsupportedTexFormat format_var))
  | some format =>
  pbind (readU32 s) fun swizzle_control s =>
  pbind (readU32 s) fun cubemap_marker s =>
  pbind (readU8 s) fun unkn04 s =>
  pbind (readU8 s) fun unkn05 s =>
  pbind (readU16 s) fun null0 s =>
  pbind
    (if version > 27 ∧ version ≠ 190820018 then
      pbind (readU8 s) fun shd s =>
      pbind (readU8 s) fun sw s =>
      pbind (readU16 s) fun n1 s =>
      pbind (readU16 s) fun seven s =>
      pbind (readU16 s) fun one s =>
      .ok ((shd, sw, n1, seven, one), s)
    else
      .ok ((0, 0, 0, 0, 0), s)) fun swz s =>
  if swizzle_control = 1 then
    .error (.err (.Unimplemented "Swizzle not implemented yet."))
  else
    .ok ({ magic := magic, version := version, width := width, height := height,
           depth := depth,
           mipmap_count :=
             if version > 11 ∧ version ≠ 190820018 then cnt1 / MipEntry.SIZE else cnt0,
           tex_count := if version > 11 ∧ version ≠ 190820018 then cnt0 else cnt1,
           mipmap_header_size := if version > 11 ∧ version ≠ 190820018 then cnt1 else 0,
           format := format,
           swizzle_control := swizzle_control, cubemap_marker := cubemap_marker,
           unkn04 := unkn04, unkn05 := unkn05, null0 := null0,
           swizzle_height_depth := swz.1, swizzle_width := swz.2.1,
           null1 := swz.2.2.1, seven := swz.2.2.2.1, one := swz.2.2.2.2 }, s)

/-- `src/tex.rs` `TexHeader::as_bytes` (the writer cannot fail in the model:
writing to a `Vec` cursor never errors in the source either). -/
def TexHeader.as_bytes (h : TexHeader) : Bytes :=
  texMagic ++ encodeU32 h.version ++ encodeU16 h.width ++ encodeU16 h.height ++
    encodeU16 h.depth ++
    (if h.version > 11 ∧ h.version ≠ 190820018 then
      [Byte.ofNat h.tex_count, Byte.ofNat h.mipmap_header_size]
    else
      [Byte.ofNat h.mipmap_count, Byte.ofNat h.tex_count]) ++
    encodeU32 h.format ++ encodeU32 h.swizzle_control ++ encodeU32 h.cubemap_marker ++
    [Byte.ofNat h.unkn04, Byte.ofNat h.unkn05] ++ encodeU16 h.null0 ++
    (if h.version > 27 ∧ h.version ≠ 190820018 then
      [Byte.ofNat h.swizzle_height_depth, Byte.ofNat h.swizzle_width] ++
        encodeU16 h.null1 ++ encodeU16 h.seven ++ encodeU16 h.one
    else
      [])

/-- `src/tex.rs` `MipEntry` (16 bytes, `#[repr(C)]`, transmuted from the raw
little-endian buffer: `offset` = bytes 0..8, `scanline_length` = bytes 8..12,
`uncompressed_size` = bytes 12..16). -/
structure MipEntry where
  offset : Nat
  scanline_length : Nat
  uncompressed_size : Nat
  deriving DecidableEq, Repr

/-- `MipEntry::from_reader`: `read_exact` of 16 bytes, interpreted as the
three little-endian fields. -/
def MipEntry.from_reader (s : Bytes) : Except Fail (MipEntry × Bytes) :=
  pbind (readU64 s) fun offset s =>
  pbind (readU32 s) fun scanline_length s =>
  pbind (readU32 s) fun uncompressed_size s =>
  .ok ({ offset := offset, scanline_length := scanline_length,
         uncompressed_size := uncompressed_size }, s)

/-- `MipEntry::as_bytes`: the 16-byte little-endian image of the record. -/
def MipEntry.as_bytes (e : MipEntry) : Bytes :=
  encodeU64 e.offset ++ encodeU32 e.scanline_length ++ encodeU32 e.uncompressed_size

/-- `src/tex.rs` `CompressionInfo` (8 bytes: `compressed_size` = bytes 0..4,
`compressed_offset` = bytes 4..8, little-endian). -/
structure CompressionInfo where
  compressed_size : Nat
  compressed_offset : Nat
  deriving DecidableEq, Repr

/-- `CompressionInfo::from_reader`. -/
def CompressionInfo.from_reader (s : Bytes) : Except Fail (CompressionInfo × Bytes) :=
  pbind (readU32 s) fun compressed_size s =>
  pbind (readU32 s) fun compressed_offset s =>
  .ok ({ compressed_size := compressed_size, compressed_offset := compressed_offset }, s)

/-- `CompressionInfo::as_bytes`: the 8-byte little-endian image. -/
def CompressionInfo.as_bytes (ci : CompressionInfo) : Bytes :=
  encodeU32 ci.compressed_size ++ encodeU32 ci.compressed_offset

/-- The `for _ in 0..num_mipmaps { mip_entries.push(...) }` loop of
`Tex::from_reader`. -/
def readMipEntries : Nat → Bytes → Except Fail (List MipEntry × Bytes)
  | 0, s => .ok ([], s)
  | n + 1, s =>
      pbind (MipEntry.from_reader s) fun e s =>
      pbind (readMipEntries n s) fun es s =>
      .ok (e :: es, s)

/-- The `for _ in 0..num_mipmaps { compression_infos.push(...) }` loop. -/
def readCompressionInfos : Nat → Bytes → Except Fail (List CompressionInfo × Bytes)
  | 0, s => .ok ([], s)
  | n + 1, s =>
      pbind (CompressionInfo.from_reader s) fun ci s =>
      pbind (readCompressionInfos n s) fun cis s =>
      .ok (ci :: cis, s)

/-- `src/gdf.rs` `K_GDEFLATE_ID`. -/
def K_GDEFLATE_ID : Nat := 4

/-- `src/gdf.rs` `KDEFAULT_TILE_SIZE` = 64 KiB. -/
def KDEFAULT_TILE_SIZE : Nat := 64 * 1024

/-- Modelled from the spec: `crate::macros::BitField::bit_split` (the
`src/macros.rs` file is not part of the provided sources). Per the spec the
packed 32-bit flags word splits as `(tile_size_idx: 2 bits, last_tile_size:
18 bits, reserv1: 12 bits)`, C-bitfield style from the least significant bits
of the little-endian `u32`. -/
def bit_split_2_18_12 (flags : Nat) : Nat × Nat × Nat :=
  (flags % 2 ^ 2, flags / 2 ^ 2 % 2 ^ 18, flags / 2 ^ 20 % 2 ^ 12)

/-- `src/gdf.rs` `TileStream`. -/
structure TileStream where
  id : Nat
  magic : Nat
  num_tiles : Nat
  tile_size_idx : Nat
  last_tile_size : Nat
  reserv1 : Nat
  deriving DecidableEq, Repr

/-- `TileStream::from`: the 8-byte framing header (`id`, `magic`,
`num_tiles`, packed flags). Only the header prefix is consumed; the caller
keeps addressing the full payload. -/
def TileStream.from (s : Bytes) : Except Fail TileStream :=
  pbind (readU8 s) fun id s =>
  pbind (readU8 s) fun magic s =>
  pbind (readU16 s) fun num_tiles s =>
  pbind (readU32 s) fun flags _ =>
  .ok { id := id, magic := magic, num_tiles := num_tiles,
        tile_size_idx := (bit_split_2_18_12 flags).1,
        last_tile_size := (bit_split_2_18_12 flags).2.1,
        reserv1 := (bit_split_2_18_12 flags).2.2 }

/-- `TileStream::get_uncompressed_size`. -/
def TileStream.get_uncompressed_size (ts : TileStream) : Nat :=
  ts.num_tiles * KDEFAULT_TILE_SIZE -
    (if ts.last_tile_size = 0 then 0 else KDEFAULT_TILE_SIZE - ts.last_tile_size)

/-- `TileStream::is_valid`. -/
def TileStream.is_valid (ts : TileStream) : Bool :=
  ts.id = ts.magic ^^^ 0xFF ∧ ts.id = K_GDEFLATE_ID

/-- Outcome of one call into the external gdeflate entropy decoder
(`sys::libdeflate_gdeflate_decompress`): the `libdeflate_result` codes the
source matches on. `success` carries the bytes the decoder wrote (the source
caps the write at the `KDEFAULT_TILE_SIZE` capacity it passes). -/
inductive GdfDecodeResult where
  | success (out : Bytes)
  | badData
  | insufficientSpace
  | unknown

/-- The external entropy-decode capability (FFI oracle): compressed tile
bytes and an output capacity give one `libdeflate_result`. -/
structure Decoder where
  decode : Bytes → Nat → GdfDecodeResult

/-- Byte read from the raw input buffer at an absolute index, as the
source's unchecked pointer arithmetic does (an out-of-range read is
undefined behaviour in the source; the model totalises it to 0). -/
def byteAt (s : Bytes) (i : Nat) : Nat :=
  (s.getD i (0 : Byte)).val

/-- Little-endian `u32` read from the raw input buffer at absolute byte
index `i` (the source's `*tile_offsets.add(..)`). -/
def rawU32At (s : Bytes) (i : Nat) : Nat :=
  byteAt s i + 2 ^ 8 * byteAt s (i + 1) + 2 ^ 16 * byteAt s (i + 2) +
    2 ^ 24 * byteAt s (i + 3)

/-- Overwrite `buf` starting at `off` with `new`, never changing the length
(the source writes through a raw pointer into a `Vec` whose length is fixed). -/
def writeAt (buf : Bytes) (off : Nat) (new : Bytes) : Bytes :=
  (buf.take off ++ new ++ buf.drop (off + new.length)).take buf.length

/-- The per-tile loop of `GDfDecompressor::decompress`, iterating over the
remaining `tile_index` values. `in_data` is the whole payload; the offset
table starts at byte 8 (`size_of::<u64>()`); compressed tile data starts
right after the `num_tiles` table entries. -/
def gdfLoop (dec : Decoder) (in_data : Bytes) (num_tiles : Nat) :
    List Nat → Bytes → Except Fail Bytes
  | [], out => .ok out
  | tile_index :: rest, out =>
      -- tile_offset: table entry `tile_index` for tiles after the first,
      -- tile 0 implicitly at offset 0
      let tile_offset := if tile_index > 0 then rawU32At in_data (8 + 4 * tile_index) else 0
      -- data_size: next table entry minus this offset, except the last tile,
      -- whose size is taken from table slot 0 (u32 subtraction kept as
      -- truncated Nat subtraction)
      let data_size :=
        if tile_index < num_tiles - 1 then
          rawU32At in_data (8 + 4 * (tile_index + 1)) - tile_offset
        else
          rawU32At in_data 8
      let data := ((in_data.drop (8 + 4 * num_tiles + tile_offset)).take data_size)
      match dec.decode data KDEFAULT_TILE_SIZE with
      | .success o =>
          gdfLoop dec in_data num_tiles rest
            (writeAt out (tile_index * KDEFAULT_TILE_SIZE) (o.take KDEFAULT_TILE_SIZE))
      | .badData => .error (.err (.GDeflate (.Decompression .BadData)))
      | .insufficientSpace =>
          .error (.err (.GDeflate (.Decompression .InsufficientSpace)))
      | .unknown => .error .crash

/-- `src/gdf.rs` `GDfDecompressor::decompress`. -/
def GDfDecompressor.decompress (dec : Decoder) (in_data : Bytes) :
    Except Fail Bytes :=
  match TileStream.from in_data with
  | .error e => .error e
  | .ok tile_stream =>
      if ¬ tile_stream.is_valid then
        .error (.err (.GDeflate (.Decompression .BadData)))
      else
        gdfLoop dec in_data tile_stream.num_tiles
          (List.range tile_stream.num_tiles)
          (List.replicate tile_stream.get_uncompressed_size (0 : Byte))

/-- The magic-byte sniff of `MipData::new`:
`texture_data.len() >= 2 && texture_data[0..2] == [0x04, 0xFB]`. -/
def isGdeflateData (data : Bytes) : Bool :=
  match data with
  | b0 :: b1 :: _ => b0.val = 0x04 ∧ b1.val = 0xFB
  | _ => false

/-- `src/tex.rs` `MipData`. -/
structure MipData where
  entry : MipEntry
  compression_info : CompressionInfo
  texture_data : Bytes
  is_gdeflate : Bool
  deriving DecidableEq, Repr

/-- `MipData::new`. -/
def MipData.new (entry : MipEntry) (compression_info : CompressionInfo)
    (texture_data : Bytes) : MipData :=
  { entry := entry, compression_info := compression_info,
    texture_data := texture_data, is_gdeflate := isGdeflateData texture_data }

/-- `MipData::is_compressed`. -/
def MipData.is_compressed (md : MipData) : Bool := md.is_gdeflate

/-- `MipData::uncompressed_data` (the decompressor argument is the external
decode oracle; constructing a fresh `GDfDecompressor` is modelled as using
that same oracle). -/
def MipData.uncompressed_data (dec : Decoder) (md : MipData) : Except Fail Bytes :=
  if md.is_gdeflate then GDfDecompressor.decompress dec md.texture_data
  else .ok md.texture_data

/-- The mip-slicing loop of `Tex::from_reader`: for each
`(mip_entry, compression_info)` pair, slice
`data[compressed_offset .. compressed_offset + compressed_size]` (an
out-of-range slice panics), then zero-pad by
`uncompressed_size - scanline_length` when `swizzle_control == 1`. -/
def sliceMips (swizzle_control : Nat) (data : Bytes) :
    List (MipEntry × CompressionInfo) → Except Fail (List Bytes)
  | [] => .ok []
  | (mip_entry, compression_info) :: rest =>
      let start := compression_info.compressed_offset
      let padding :=
        if swizzle_control ≠ 1 then 0
        else mip_entry.uncompressed_size - mip_entry.scanline_length
      if start + compression_info.compressed_size ≤ data.length then
        let slice := (data.drop start).take compression_info.compressed_size
        let mip_data :=
          if padding > 0 then slice ++ List.replicate padding (0 : Byte) else slice
        match sliceMips swizzle_control data rest with
        | .error e => .error e
        | .ok ms => .ok (mip_data :: ms)
      else
        .error .crash

/-- The `mipmaps.zip(mip_entries).zip(compression_infos).map(MipData::new)`
collection step. -/
def collectMipDatas : List Bytes → List MipEntry → List CompressionInfo → List MipData
  | d :: ds, e :: es, c :: cs => MipData.new e c d :: collectMipDatas ds es cs
  | _, _, _ => []

/-- Inner validation loop of `Tex::from_reader`: one texture's mips, with
`img_mip_idx` counting the 0-based mip level. -/
def validateGroup (dec : Decoder) (depth : Nat) : Nat → List MipData → Except Fail Unit
  | _, [] => .ok ()
  | img_mip_idx, md :: rest =>
      match md.uncompressed_data dec with
      | .error e => .error e
      | .ok u =>
          if u.length ≠ md.entry.uncompressed_size * max 1 (depth >>> img_mip_idx) then
            .error (.err (.Internal "Mipmap data size does not match mipmap entry size"))
          else
            validateGroup dec depth (img_mip_idx + 1) rest

/-- Outer validation loop: `tex_count` groups of `mipmap_count` mips in table
order (the source indexes the flat list with a running `_idx`). -/
def validateAll (dec : Decoder) (depth mipmap_count : Nat) :
    Nat → List MipData → Except Fail Unit
  | 0, _ => .ok ()
  | t + 1, mds =>
      match validateGroup dec depth 0 (mds.take mipmap_count) with
      | .error e => .error e
      | .ok _ => validateAll dec depth mipmap_count t (mds.drop mipmap_count)

/-- `src/tex.rs` `Tex`. -/
structure Tex where
  header : TexHeader
  mip_datas : List MipData
  deriving DecidableEq, Repr

/-- `src/tex.rs` `Tex::from_reader`, parameterised by the external entropy
decoder used when validation has to decompress a tile-compressed mip. -/
def Tex.from_reader (dec : Decoder) (s : Bytes) : Except Fail Tex :=
  match TexHeader.from_reader s with
  | .error e => .error e
  | .ok (header, s) =>
  match readMipEntries (header.mipmap_count * header.tex_count) s with
  | .error e => .error e
  | .ok (mip_entries, s) =>
  match readCompressionInfos (header.mipmap_count * header.tex_count) s with
  | .error e => .error e
  | .ok (compression_infos, s) =>
  if mip_entries.length ≠ compression_infos.length then
    .error (.err (.Internal "mip_entries and compression_infos have different lengths"))
  else
    -- `reader.read_to_end(&mut data)`: the rest of the input is the blob
    match sliceMips header.swizzle_control s (mip_entries.zip compression_infos) with
    | .error e => .error e
    | .ok mipmaps =>
      match validateAll dec header.depth header.mipmap_count header.tex_count
          (collectMipDatas mipmaps mip_entries compression_infos) with
      | .error e => .error e
      | .ok _ =>
          .ok { header := header,
                mip_datas := collectMipDatas mipmaps mip_entries compression_infos }

/-- `src/tex.rs` `Tex::as_bytes`: header, full `MipEntry` table, full
`CompressionInfo` table, then each mip's raw bytes in table order. -/
def Tex.as_bytes (t : Tex) : Bytes :=
  t.header.as_bytes ++
    (t.mip_datas.map (fun md => md.entry.as_bytes)).flatten ++
    (t.mip_datas.map (fun md => md.compression_info.as_bytes)).flatten ++
    (t.mip_datas.map (fun md => md.texture_data)).flatten

/-- The mip loop of `Tex::batch_decompress`, threading the running
`curr_comp_offset` (a `u32`; the `+=` is modelled as checked addition, i.e.
debug-build overflow semantics, and `out_data.len() as u32` as a truncating
cast). -/
def batchGo (dec : Decoder) : Nat → List MipData → Except Fail (List MipData)
  | _, [] => .ok []
  | curr, md :: rest =>
      if ¬ md.is_compressed then
        if curr + md.compression_info.compressed_size < 2 ^ 32 then
          match batchGo dec (curr + md.compression_info.compressed_size) rest with
          | .error e => .error e
          | .ok ms =>
              .ok ({ md with
                      compression_info :=
                        { md.compression_info with compressed_offset := curr } } :: ms)
        else .error .crash
      else
        match GDfDecompressor.decompress dec md.texture_data with
        | .error e => .error e
        | .ok out_data =>
            if curr + out_data.length % 2 ^ 32 < 2 ^ 32 then
              match batchGo dec (curr + out_data.length % 2 ^ 32) rest with
              | .error e => .error e
              | .ok ms =>
                  .ok ({ entry := md.entry,
                         compression_info :=
                           { compressed_size := out_data.length % 2 ^ 32,
                             compressed_offset := curr },
                         texture_data := out_data,
                         is_gdeflate := false } :: ms)
            else .error .crash

/-- `src/tex.rs` `Tex::batch_decompress` (in-place mutation modelled as
returning the updated `Tex`). -/
def Tex.batch_decompress (dec : Decoder) (t : Tex) : Except Fail Tex :=
  match batchGo dec 0 t.mip_datas with
  | .error e => .error e
  | .ok ms => .ok { header := t.header, mip_datas := ms }

/-- The `CompressionInfo` records tile the data blob contiguously starting at
`off`: each record's `compressed_offset` is `off` plus the sizes of all
records before it. -/
def tilesFrom (off : Nat) : List CompressionInfo → Bool
  | [] => true
  | ci :: rest => ci.compressed_offset = off && tilesFrom (off + ci.compressed_size) rest

instance {ε α : Type} [DecidableEq ε] [DecidableEq α] : DecidableEq (Except ε α) :=
  fun a b =>
    match a, b with
    | .error e1, .error e2 =>
        if h : e1 = e2 then .isTrue (by rw [h]) else .isFalse (by simp [h])
    | .ok a1, .ok a2 =>
        if h : a1 = a2 then .isTrue (by rw [h]) else .isFalse (by simp [h])
    | .error _, .ok _ => .isFalse (by simp)
    | .ok _, .error _ => .isFalse (by simp)

/-- A decode oracle that always reports malformed data (never consulted on
inputs with no tile-compressed mip). -/
def trivDecoder : Decoder := ⟨fun _ _ => .badData⟩

/-- A decode oracle whose decode always succeeds writing zero bytes. -/
def emptyDecoder : Decoder := ⟨fun _ _ => .success []⟩

/-- A minimal well-formed TEX file: version 1 (legacy count order), 1 texture,
1 mip of 1 byte, blob exactly covered by the single slice at offset 0. -/
def rawInput : Bytes :=
  [0x54, 0x45, 0x58, 0x00, 1, 0, 0, 0, 0, 0, 0, 0, 0, 0, 1, 1,
   0x41, 0, 0, 0, 0, 0, 0, 0, 0, 0, 0, 0, 0, 0, 0, 0,
   0, 0, 0, 0, 0, 0, 0, 0, 0, 0, 0, 0, 1, 0, 0, 0,
   1, 0, 0, 0, 0, 0, 0, 0,
   0xAA]

/-- The `Tex` value `rawInput` parses to. -/
def rawTex : Tex :=
  { header := { magic := [0x54, 0x45, 0x58, 0x00], version := 1, width := 0, height := 0,
                depth := 0, mipmap_count := 1, tex_count := 1, mipmap_header_size := 0,
                format := 0x41, swizzle_control := 0, cubemap_marker := 0, unkn04 := 0,
                unkn05 := 0, null0 := 0, swizzle_height_depth := 0, swizzle_width := 0,
                null1 := 0, seven := 0, one := 0 },
    mip_datas := [{ entry := { offset := 0, scanline_length := 0, uncompressed_size := 1 },
                    compression_info := { compressed_size := 1, compressed_offset := 0 },
                    texture_data := [0xAA], is_gdeflate := false }] }

/-- Like `rawInput` but the single mip's slice starts at offset 1 of a 2-byte
blob, leaving blob byte 0 outside every slice. -/
def cexInput : Bytes :=
  [0x54, 0x45, 0x58, 0x00, 1, 0, 0, 0, 0, 0, 0, 0, 0, 0, 1, 1,
   0x41, 0, 0, 0, 0, 0, 0, 0, 0, 0, 0, 0, 0, 0, 0, 0,
   0, 0, 0, 0, 0, 0, 0, 0, 0, 0, 0, 0, 1, 0, 0, 0,
   1, 0, 0, 0, 1, 0, 0, 0,
   0xAA, 0xBB]

/-- The `Tex` value `cexInput` parses to. -/
def cexTex : Tex :=
  { header := { magic := [0x54, 0x45, 0x58, 0x00], version := 1, width := 0, height := 0,
                depth := 0, mipmap_count := 1, tex_count := 1, mipmap_header_size := 0,
                format := 0x41, swizzle_control := 0, cubemap_marker := 0, unkn04 := 0,
                unkn05 := 0, null0 := 0, swizzle_height_depth := 0, swizzle_width := 0,
                null1 := 0, seven := 0, one := 0 },
    mip_datas := [{ entry := { offset := 0, scanline_length := 0, uncompressed_size := 1 },
                    compression_info := { compressed_size := 1, compressed_offset := 1 },
                    texture_data := [0xBB], is_gdeflate := false }] }

/-- A tile-compression payload: valid header (`id = 4`, `magic = 0xFB`),
`num_tiles = 1`, flags `0x190` encoding `last_tile_size = 100`, then the
one-entry offset table. -/
def gdfPayload : Bytes := [0x04, 0xFB, 1, 0, 0x90, 0x01, 0, 0, 0, 0, 0, 0]

/-- A tile-compression payload whose header has `id = 5` (invalid). -/
def badPayload : Bytes := [5, 0xFB, 0, 0, 0, 0, 0, 0]

/-- A version-12 header (no mip tables follow): takes the
`tex_count/mipmap_header_size` branch with `mipmap_header_size = 16`. -/
def hdr12Input : Bytes :=
  [0x54, 0x45, 0x58, 0x00, 12, 0, 0, 0, 0, 0, 0, 0, 0, 0, 1, 16,
   0x41, 0, 0, 0, 0, 0, 0, 0, 0, 0, 0, 0, 0, 0, 0, 0]

/-- The header `hdr12Input` parses to. -/
def hdr12Header : TexHeader :=
  { magic := [0x54, 0x45, 0x58, 0x00], version := 12, width := 0, height := 0,
    depth := 0, mipmap_count := 1, tex_count := 1, mipmap_header_size := 16,
    format := 0x41, swizzle_control := 0, cubemap_marker := 0, unkn04 := 0,
    unkn05 := 0, null0 := 0, swizzle_height_depth := 0, swizzle_width := 0,
    null1 := 0, seven := 0, one := 0 }

/-- A mip whose data is one byte but whose entry demands two: the validation
loop must reject it with the `Internal` size-mismatch error. -/
def violatingMip : MipData :=
  MipData.new { offset := 0, scanline_length := 0, uncompressed_size := 2 }
    { compressed_size := 1, compressed_offset := 0 } [0xAA]

theorem Byte.ofNat_val (b : Byte) : Byte.ofNat b.val = b := by
  apply Fin.ext
  simp [Byte.ofNat, Nat.mod_eq_of_lt b.isLt]

theorem pbind_ok {α β : Type} {m : Except Fail (α × Bytes)} {k : α → Bytes → Except Fail β}
    {b : β} : pbind m k = .ok b ↔ ∃ a s, m = .ok (a, s) ∧ k a s = .ok b := by
  cases m with
  | error e => simp [pbind]
  | ok p =>
    cases p with
    | mk a s =>
      constructor
      · intro h
        exact ⟨a, s, rfl, h⟩
      · rintro ⟨a', s', h1, h2⟩
        cases h1
        exact h2

theorem readU8_ok {s : Bytes} {n : Nat} {r : Bytes} (h : readU8 s = .ok (n, r)) :
    s = Byte.ofNat n :: r ∧ n < 2 ^ 8 := by
  match s with
  | [] => simp [readU8] at h
  | b :: t =>
    simp only [readU8, Except.ok.injEq, Prod.mk.injEq] at h
    obtain ⟨h1, h2⟩ := h
    subst h1; subst h2
    exact ⟨by rw [Byte.ofNat_val], b.isLt⟩

theorem readU16_ok {s : Bytes} {n : Nat} {r : Bytes} (h : readU16 s = .ok (n, r)) :
    s = encodeU16 n ++ r ∧ n < 2 ^ 16 := by
  match s with
  | [] => simp [readU16] at h
  | [b0] => simp [readU16] at h
  | b0 :: b1 :: t =>
    simp only [readU16, Except.ok.injEq, Prod.mk.injEq] at h
    obtain ⟨h1, h2⟩ := h
    subst h1; subst h2
    have hb0 := b0.isLt
    have hb1 := b1.isLt
    refine ⟨?_, by omega⟩
    simp only [encodeU16, List.cons_append, List.nil_append, List.cons.injEq]
    refine ⟨?_, ?_, trivial⟩
    · apply Fin.ext; simp [Byte.ofNat]; omega
    · apply Fin.ext; simp [Byte.ofNat]; omega

theorem readU32_ok {s : Bytes} {n : Nat} {r : Bytes} (h : readU32 s = .ok (n, r)) :
    s = encodeU32 n ++ r ∧ n < 2 ^ 32 := by
  match s with
  | [] => simp [readU32] at h
  | [b0] => simp [readU32] at h
  | [b0, b1] => simp [readU32] at h
  | [b0, b1, b2] => simp [readU32] at h
  | b0 :: b1 :: b2 :: b3 :: t =>
    simp only [readU32, Except.ok.injEq, Prod.mk.injEq] at h
    obtain ⟨h1, h2⟩ := h
    subst h1; subst h2
    have hb0 := b0.isLt
    have hb1 := b1.isLt
    have hb2 := b2.isLt
    have hb3 := b3.isLt
    refine ⟨?_, by omega⟩
    simp only [encodeU32, List.cons_append, List.nil_append, List.cons.injEq]
    refine ⟨?_, ?_, ?_, ?_, trivial⟩ <;> (apply Fin.ext; simp [Byte.ofNat]; omega)

theorem readU64_ok {s : Bytes} {n : Nat} {r : Bytes} (h : readU64 s = .ok (n, r)) :
    s = encodeU64 n ++ r ∧ n < 2 ^ 64 := by
  match s with
  | [] => simp [readU64] at h
  | [b0] => simp [readU64] at h
  | [b0, b1] => simp [readU64] at h
  | [b0, b1, b2] => simp [readU64] at h
  | [b0, b1, b2, b3] => simp [readU64] at h
  | [b0, b1, b2, b3, b4] => simp [readU64] at h
  | [b0, b1, b2, b3, b4, b5] => simp [readU64] at h
  | [b0, b1, b2, b3, b4, b5, b6] => simp [readU64] at h
  | b0 :: b1 :: b2 :: b3 :: b4 :: b5 :: b6 :: b7 :: t =>
    simp only [readU64, Except.ok.injEq, Prod.mk.injEq] at h
    obtain ⟨h1, h2⟩ := h
    subst h1; subst h2
    have hb0 := b0.isLt
    have hb1 := b1.isLt
    have hb2 := b2.isLt
    have hb3 := b3.isLt
    have hb4 := b4.isLt
    have hb5 := b5.isLt
    have hb6 := b6.isLt
    have hb7 := b7.isLt
    refine ⟨?_, by omega⟩
    simp only [encodeU64, List.cons_append, List.nil_append, List.cons.injEq]
    refine ⟨?_, ?_, ?_, ?_, ?_, ?_, ?_, ?_, trivial⟩ <;> (apply Fin.ext; simp [Byte.ofNat]; omega)

theorem readBytes_ok {n : Nat} {s v r : Bytes} (h : readBytes n s = .ok (v, r)) :
    s = v ++ r ∧ v.length = n := by
  unfold readBytes at h
  split at h
  · next hle =>
    simp only [Except.ok.injEq, Prod.mk.injEq] at h
    obtain ⟨h1, h2⟩ := h
    subst h1; subst h2
    exact ⟨(List.take_append_drop n s).symm, List.length_take_of_le hle⟩
  · simp at h

/-- Inversion of a successful `TexHeader::from_reader`: the consumed bytes are
exactly `as_bytes` of the parsed header, the derived-count relation of the
`version > 11` branch holds, the unread optional fields keep their defaults,
and `swizzle_control == 1` never survives parsing. -/
theorem texHeader_parse_inv {s : Bytes} {h : TexHeader} {r : Bytes}
    (hp : TexHeader.from_reader s = .ok (h, r)) :
    s = h.as_bytes ++ r ∧ h.magic = texMagic ∧
      ((h.version > 11 ∧ h.version ≠ 190820018) →
        h.mipmap_count = h.mipmap_header_size / 16) ∧
      (¬(h.version > 11 ∧ h.version ≠ 190820018) → h.mipmap_header_size = 0) ∧
      h.swizzle_control ≠ 1 ∧
      h.mipmap_count < 2 ^ 8 ∧ h.tex_count < 2 ^ 8 ∧ h.mipmap_header_size < 2 ^ 8 := by
  unfold TexHeader.from_reader at hp
  rw [pbind_ok] at hp
  obtain ⟨magic, s1, h1, hp⟩ := hp
  obtain ⟨hs1, hlen1⟩ := readBytes_ok h1
  by_cases hm : magic ≠ texMagic
  · rw [if_pos hm] at hp; exact absurd hp (by simp)
  rw [if_neg hm] at hp
  push_neg at hm
  rw [pbind_ok] at hp
  obtain ⟨version, s2, h2, hp⟩ := hp
  obtain ⟨hs2, hver⟩ := readU32_ok h2
  rw [pbind_ok] at hp
  obtain ⟨width, s3, h3, hp⟩ := hp
  obtain ⟨hs3, hw⟩ := readU16_ok h3
  rw [pbind_ok] at hp
  obtain ⟨height, s4, h4, hp⟩ := hp
  obtain ⟨hs4, hh⟩ := readU16_ok h4
  rw [pbind_ok] at hp
  obtain ⟨depth, s5, h5, hp⟩ := hp
  obtain ⟨hs5, hd⟩ := readU16_ok h5
  rw [pbind_ok] at hp
  obtain ⟨cnt0, s6, h6, hp⟩ := hp
  obtain ⟨hs6, hc0⟩ := readU8_ok h6
  rw [pbind_ok] at hp
  obtain ⟨cnt1, s7, h7, hp⟩ := hp
  obtain ⟨hs7, hc1⟩ := readU8_ok h7
  rw [pbind_ok] at hp
  obtain ⟨format_var, s8, h8, hp⟩ := hp
  obtain ⟨hs8, hfv⟩ := readU32_ok h8
  rcases hmf : TexFormat.from_repr format_var with _ | format
  · rw [hmf] at hp; exact absurd hp (by simp)
  rw [hmf] at hp
  rw [pbind_ok] at hp
  obtain ⟨swizzle_control, s9, h9, hp⟩ := hp
  obtain ⟨hs9, hsc⟩ := readU32_ok h9
  rw [pbind_ok] at hp
  obtain ⟨cubemap_marker, s10, h10, hp⟩ := hp
  obtain ⟨hs10, hcm⟩ := readU32_ok h10
  rw [pbind_ok] at hp
  obtain ⟨unkn04, s11, h11, hp⟩ := hp
  obtain ⟨hs11, hu4⟩ := readU8_ok h11
  rw [pbind_ok] at hp
  obtain ⟨unkn05, s12, h12, hp⟩ := hp
  obtain ⟨hs12, hu5⟩ := readU8_ok h12
  rw [pbind_ok] at hp
  obtain ⟨null0, s13, h13, hp⟩ := hp
  obtain ⟨hs13, hn0⟩ := readU16_ok h13
  rw [pbind_ok] at hp
  obtain ⟨swz, s14, h14, hp⟩ := hp
  by_cases hsz : swizzle_control = 1
  · rw [if_pos hsz] at hp; exact absurd hp (by simp)
  rw [if_neg hsz] at hp
  simp only [Except.ok.injEq, Prod.mk.injEq] at hp
  obtain ⟨hph, hpr⟩ := hp
  subst hph
  subst hpr
  -- `TexFormat::from_repr` is the identity on success
  have hfmt : format = format_var := by
    unfold TexFormat.from_repr at hmf
    split at hmf
    · exact (Option.some.injEq _ _ ▸ hmf).symm
    · exact absurd hmf (by simp)
  subst hfmt
  by_cases hc27 : version > 27 ∧ version ≠ 190820018
  · rw [if_pos hc27] at h14
    rw [pbind_ok] at h14
    obtain ⟨shd, t1, g1, h14⟩ := h14
    obtain ⟨ht1, hshd⟩ := readU8_ok g1
    rw [pbind_ok] at h14
    obtain ⟨sw, t2, g2, h14⟩ := h14
    obtain ⟨ht2, hsw⟩ := readU8_ok g2
    rw [pbind_ok] at h14
    obtain ⟨n1, t3, g3, h14⟩ := h14
    obtain ⟨ht3, hn1⟩ := readU16_ok g3
    rw [pbind_ok] at h14
    obtain ⟨seven, t4, g4, h14⟩ := h14
    obtain ⟨ht4, hsv⟩ := readU16_ok g4
    rw [pbind_ok] at h14
    obtain ⟨one, t5, g5, h14⟩ := h14
    obtain ⟨ht5, hone⟩ := readU16_ok g5
    simp only [Except.ok.injEq, Prod.mk.injEq] at h14
    obtain ⟨hswz, ht6⟩ := h14
    subst hswz
    subst ht6
    have hc11 : version > 11 ∧ version ≠ 190820018 := ⟨by omega, hc27.2⟩
    subst hs1 hs2 hs3 hs4 hs5 hs6 hs7 hs8 hs9 hs10 hs11 hs12 hs13 ht1 ht2 ht3 ht4 ht5
    refine ⟨?_, hm, ?_, ?_, hsz, ?_, ?_, ?_⟩
    · simp only [TexHeader.as_bytes, if_pos hc11, if_pos hc27, hm]
      simp [List.append_assoc, Byte.ofNat_val]
    · intro _; simp [MipEntry.SIZE, if_pos hc11]
    · intro hcon; exact absurd hc11 hcon
    · simp only [if_pos hc11, MipEntry.SIZE]; omega
    · simp only [if_pos hc11, MipEntry.SIZE]; omega
    · simp only [if_pos hc11, MipEntry.SIZE]; omega
  · rw [if_neg hc27] at h14
    simp only [Except.ok.injEq, Prod.mk.injEq] at h14
    obtain ⟨hswz, ht6⟩ := h14
    subst hswz
    subst ht6
    subst hs1 hs2 hs3 hs4 hs5 hs6 hs7 hs8 hs9 hs10 hs11 hs12 hs13
    by_cases hc11 : version > 11 ∧ version ≠ 190820018
    · refine ⟨?_, hm, ?_, ?_, hsz, ?_, ?_, ?_⟩
      · simp only [TexHeader.as_bytes, if_pos hc11, if_neg hc27, hm]
        simp [List.append_assoc, Byte.ofNat_val]
      · intro _; simp [MipEntry.SIZE, if_pos hc11]
      · intro hcon; exact absurd hc11 hcon
      · simp only [if_pos hc11, MipEntry.SIZE]; omega
      · simp only [if_pos hc11, MipEntry.SIZE]; omega
      · simp only [if_pos hc11, MipEntry.SIZE]; omega
    · refine ⟨?_, hm, ?_, ?_, hsz, ?_, ?_, ?_⟩
      · simp only [TexHeader.as_bytes, if_neg hc11, if_neg hc27, hm]
        simp [List.append_assoc, Byte.ofNat_val]
      · intro hcon; exact absurd hcon hc11
      · intro _; simp [if_neg hc11]
      · simp only [if_neg hc11]; omega
      · simp only [if_neg hc11]; omega
      · simp only [if_neg hc11]; omega

theorem mipEntry_parse_inv {s : Bytes} {e : MipEntry} {r : Bytes}
    (hp : MipEntry.from_reader s = .ok (e, r)) :
    s = e.as_bytes ++ r ∧ e.uncompressed_size < 2 ^ 32 ∧ e.scanline_length < 2 ^ 32 := by
  unfold MipEntry.from_reader at hp
  rw [pbind_ok] at hp
  obtain ⟨offset, s1, h1, hp⟩ := hp
  obtain ⟨hs1, hof⟩ := readU64_ok h1
  rw [pbind_ok] at hp
  obtain ⟨scanline, s2, h2, hp⟩ := hp
  obtain ⟨hs2, hsl⟩ := readU32_ok h2
  rw [pbind_ok] at hp
  obtain ⟨usize, s3, h3, hp⟩ := hp
  obtain ⟨hs3, hus⟩ := readU32_ok h3
  simp only [Except.ok.injEq, Prod.mk.injEq] at hp
  obtain ⟨he, hr⟩ := hp
  subst he
  subst hr
  subst hs1 hs2 hs3
  exact ⟨by simp [MipEntry.as_bytes], hus, hsl⟩

theorem compressionInfo_parse_inv {s : Bytes} {ci : CompressionInfo} {r : Bytes}
    (hp : CompressionInfo.from_reader s = .ok (ci, r)) :
    s = ci.as_bytes ++ r ∧ ci.compressed_size < 2 ^ 32 ∧ ci.compressed_offset < 2 ^ 32 := by
  unfold CompressionInfo.from_reader at hp
  rw [pbind_ok] at hp
  obtain ⟨csize, s1, h1, hp⟩ := hp
  obtain ⟨hs1, hcs⟩ := readU32_ok h1
  rw [pbind_ok] at hp
  obtain ⟨coff, s2, h2, hp⟩ := hp
  obtain ⟨hs2, hco⟩ := readU32_ok h2
  simp only [Except.ok.injEq, Prod.mk.injEq] at hp
  obtain ⟨hc, hr⟩ := hp
  subst hc
  subst hr
  subst hs1 hs2
  exact ⟨by simp [CompressionInfo.as_bytes], hcs, hco⟩

theorem readMipEntries_inv {n : Nat} {s : Bytes} {es : List MipEntry} {r : Bytes}
    (hp : readMipEntries n s = .ok (es, r)) :
    s = (es.map MipEntry.as_bytes).flatten ++ r ∧ es.length = n := by
  induction n generalizing s es with
  | zero =>
    simp only [readMipEntries, Except.ok.injEq, Prod.mk.injEq] at hp
    obtain ⟨he, hr⟩ := hp
    subst he; subst hr
    simp
  | succ n ih =>
    unfold readMipEntries at hp
    rw [pbind_ok] at hp
    obtain ⟨e, s1, h1, hp⟩ := hp
    rw [pbind_ok] at hp
    obtain ⟨es1, s2, h2, hp⟩ := hp
    simp only [Except.ok.injEq, Prod.mk.injEq] at hp
    obtain ⟨he, hr⟩ := hp
    subst he; subst hr
    obtain ⟨hs1, _⟩ := mipEntry_parse_inv h1
    obtain ⟨hs2, hlen⟩ := ih h2
    subst hs1 hs2
    simp [hlen]

theorem readCompressionInfos_inv {n : Nat} {s : Bytes} {cis : List CompressionInfo}
    {r : Bytes} (hp : readCompressionInfos n s = .ok (cis, r)) :
    s = (cis.map CompressionInfo.as_bytes).flatten ++ r ∧ cis.length = n := by
  induction n generalizing s cis with
  | zero =>
    simp only [readCompressionInfos, Except.ok.injEq, Prod.mk.injEq] at hp
    obtain ⟨he, hr⟩ := hp
    subst he; subst hr
    simp
  | succ n ih =>
    unfold readCompressionInfos at hp
    rw [pbind_ok] at hp
    obtain ⟨ci, s1, h1, hp⟩ := hp
    rw [pbind_ok] at hp
    obtain ⟨cis1, s2, h2, hp⟩ := hp
    simp only [Except.ok.injEq, Prod.mk.injEq] at hp
    obtain ⟨he, hr⟩ := hp
    subst he; subst hr
    obtain ⟨hs1, _⟩ := compressionInfo_parse_inv h1
    obtain ⟨hs2, hlen⟩ := ih h2
    subst hs1 hs2
    simp [hlen]

theorem writeAt_length (buf : Bytes) (off : Nat) (new : Bytes) :
    (writeAt buf off new).length = buf.length := by
  unfold writeAt
  simp only [List.length_take, List.length_append, List.length_drop]
  omega

theorem gdfLoop_length {dec : Decoder} {in_data : Bytes} {num_tiles : Nat}
    {todo : List Nat} {out res : Bytes}
    (hp : gdfLoop dec in_data num_tiles todo out = .ok res) :
    res.length = out.length := by
  induction todo generalizing out with
  | nil =>
    simp only [gdfLoop, Except.ok.injEq] at hp
    subst hp; rfl
  | cons i rest ih =>
    unfold gdfLoop at hp
    simp only at hp
    split at hp
    · next o _ =>
      rw [ih hp]
      exact writeAt_length ..
    · simp at hp
    · simp at hp
    · simp at hp

/-- On success, `decompress` returns exactly `get_uncompressed_size` bytes of
the parsed tile stream. -/
theorem decompress_ok_length {dec : Decoder} {in_data : Bytes} {out : Bytes}
    (hp : GDfDecompressor.decompress dec in_data = .ok out) :
    ∃ ts, TileStream.from in_data = .ok ts ∧ ts.is_valid = true ∧
      out.length = ts.get_uncompressed_size := by
  unfold GDfDecompressor.decompress at hp
  split at hp
  · simp at hp
  · next ts hts =>
    split at hp
    · simp at hp
    · next hvalid =>
      refine ⟨ts, hts, by simpa using hvalid, ?_⟩
      rw [gdfLoop_length hp]
      simp

theorem mipEntry_as_bytes_length (e : MipEntry) : e.as_bytes.length = 16 := rfl

theorem compressionInfo_as_bytes_length (ci : CompressionInfo) : ci.as_bytes.length = 8 := rfl

/-- Inversion of a successful mip-slicing pass when `swizzle_control != 1`
(the only reachable case, since parsing rejects `swizzle_control == 1`):
every produced mip is the exact in-bounds slice named by its
`CompressionInfo`, with no padding appended. -/
theorem sliceMips_inv {sc : Nat} (hsc : sc ≠ 1) {data : Bytes}
    {pairs : List (MipEntry × CompressionInfo)} {ms : List Bytes}
    (hp : sliceMips sc data pairs = .ok ms) :
    ms = pairs.map
        (fun p => (data.drop p.2.compressed_offset).take p.2.compressed_size) ∧
      ∀ p ∈ pairs, p.2.compressed_offset + p.2.compressed_size ≤ data.length := by
  induction pairs generalizing ms with
  | nil =>
    simp only [sliceMips, Except.ok.injEq] at hp
    subst hp
    simp
  | cons p rest ih =>
    obtain ⟨e, ci⟩ := p
    simp only [sliceMips, hsc, ne_eq, not_false_eq_true, if_true, Nat.lt_irrefl,
      gt_iff_lt, if_false] at hp
    split at hp
    · next hle =>
      split at hp
      · simp at hp
      · next ms1 hrest =>
        simp only [Except.ok.injEq] at hp
        subst hp
        obtain ⟨hms, hbound⟩ := ih hrest
        subst hms
        refine ⟨by simp, ?_⟩
        intro q hq
        rcases List.mem_cons.mp hq with hq1 | hq1
        · subst hq1; exact hle
        · exact hbound q hq1
    · simp at hp

theorem collectMipDatas_map_entry {ds : List Bytes} {es : List MipEntry}
    {cs : List CompressionInfo} (hde : ds.length = es.length)
    (hec : es.length = cs.length) :
    (collectMipDatas ds es cs).map (fun md => md.entry) = es := by
  induction ds generalizing es cs with
  | nil =>
    match es, cs with
    | [], _ => simp [collectMipDatas]
    | _ :: _, _ => simp at hde
  | cons d ds ih =>
    match es, cs with
    | [], _ => simp at hde
    | _ :: _, [] => simp at hec
    | e :: es, c :: cs =>
      simp only [collectMipDatas, List.map_cons, List.cons.injEq]
      exact ⟨rfl, ih (by simpa using hde) (by simpa using hec)⟩

theorem collectMipDatas_map_ci {ds : List Bytes} {es : List MipEntry}
    {cs : List CompressionInfo} (hde : ds.length = es.length)
    (hec : es.length = cs.length) :
    (collectMipDatas ds es cs).map (fun md => md.compression_info) = cs := by
  induction ds generalizing es cs with
  | nil =>
    match es, cs with
    | [], [] => simp [collectMipDatas]
    | [], _ :: _ => simp at hec
    | _ :: _, _ => simp at hde
  | cons d ds ih =>
    match es, cs with
    | [], _ => simp at hde
    | _ :: _, [] => simp at hec
    | e :: es, c :: cs =>
      simp only [collectMipDatas, List.map_cons, List.cons.injEq]
      exact ⟨rfl, ih (by simpa using hde) (by simpa using hec)⟩

theorem collectMipDatas_map_data {ds : List Bytes} {es : List MipEntry}
    {cs : List CompressionInfo} (hde : ds.length = es.length)
    (hec : es.length = cs.length) :
    (collectMipDatas ds es cs).map (fun md => md.texture_data) = ds := by
  induction ds generalizing es cs with
  | nil =>
    match es, cs with
    | [], _ => simp [collectMipDatas]
    | _ :: _, _ => simp at hde
  | cons d ds ih =>
    match es, cs with
    | [], _ => simp at hde
    | _ :: _, [] => simp at hec
    | e :: es, c :: cs =>
      simp only [collectMipDatas, List.map_cons, List.cons.injEq]
      exact ⟨rfl, ih (by simpa using hde) (by simpa using hec)⟩

theorem collectMipDatas_mem {ds : List Bytes} {es : List MipEntry}
    {cs : List CompressionInfo} {md : MipData}
    (hmd : md ∈ collectMipDatas ds es cs) :
    md.is_gdeflate = isGdeflateData md.texture_data := by
  induction ds generalizing es cs with
  | nil =>
    match es, cs with
    | _, _ => simp [collectMipDatas] at hmd
  | cons d ds ih =>
    match es, cs with
    | [], _ => simp [collectMipDatas] at hmd
    | _ :: _, [] => simp [collectMipDatas] at hmd
    | e :: es, c :: cs =>
      simp only [collectMipDatas] at hmd
      rcases List.mem_cons.mp hmd with h1 | h1
      · subst h1; rfl
      · exact ih h1

/-- Contiguously tiling slices reassemble the blob suffix they cover. -/
theorem flatten_slices {blob : Bytes} :
    ∀ (cis : List CompressionInfo) (k : Nat), tilesFrom k cis = true →
      (cis.map (fun ci => ci.compressed_size)).sum = blob.length - k →
      k ≤ blob.length →
      (cis.map (fun ci =>
          (blob.drop ci.compressed_offset).take ci.compressed_size)).flatten =
        blob.drop k := by
  intro cis
  induction cis with
  | nil =>
    intro k _ hsum hk
    simp only [List.map_nil, List.sum_nil] at hsum
    simp only [List.map_nil, List.flatten_nil]
    symm
    apply List.drop_eq_nil_of_le
    omega
  | cons ci rest ih =>
    intro k htiles hsum hk
    simp only [tilesFrom, Bool.and_eq_true, decide_eq_true_eq] at htiles
    obtain ⟨hoff, htiles⟩ := htiles
    simp only [List.map_cons, List.sum_cons] at hsum
    have hkc : k + ci.compressed_size ≤ blob.length := by omega
    have ihr := ih (k + ci.compressed_size) htiles (by omega) hkc
    simp only [List.map_cons, List.flatten_cons, hoff, ihr]
    exact List.drop_take_append_drop blob k ci.compressed_size

theorem collect_mem_props {blob : Bytes} :
    ∀ {es : List MipEntry} {cs : List CompressionInfo} {md : MipData},
      (∀ p ∈ es.zip cs,
        p.2.compressed_offset + p.2.compressed_size ≤ blob.length) →
      md ∈ collectMipDatas
          ((es.zip cs).map (fun p =>
            (blob.drop p.2.compressed_offset).take p.2.compressed_size)) es cs →
      md.texture_data =
          (blob.drop md.compression_info.compressed_offset).take
            md.compression_info.compressed_size ∧
        md.compression_info.compressed_offset + md.compression_info.compressed_size ≤
          blob.length ∧
        md.is_gdeflate = isGdeflateData md.texture_data := by
  intro es
  induction es with
  | nil =>
    intro cs md _ hmd
    simp [collectMipDatas] at hmd
  | cons e es ih =>
    intro cs md hb hmd
    match cs with
    | [] => simp [collectMipDatas] at hmd
    | c :: cs =>
      simp only [List.zip_cons_cons, List.map_cons, collectMipDatas] at hmd
      rcases List.mem_cons.mp hmd with h1 | h1
      · subst h1
        refine ⟨rfl, ?_, rfl⟩
        exact hb (e, c) (by simp)
      · exact ih (fun p hp => hb p (by simp [hp])) h1

/-- Inversion of a successful `Tex::from_reader`: the input decomposes into
header bytes, the two tables, and the data blob; each mip holds the exact
in-bounds slice its `CompressionInfo` names; the sniffed compression flag
matches the slice's first two bytes; and the size validation passed. -/
theorem tex_parse_inv {dec : Decoder} {input : Bytes} {t : Tex}
    (hp : Tex.from_reader dec input = .ok t) :
    ∃ blob : Bytes,
      input = t.header.as_bytes ++
        (t.mip_datas.map (fun md => md.entry.as_bytes)).flatten ++
        (t.mip_datas.map (fun md => md.compression_info.as_bytes)).flatten ++ blob ∧
      t.header.swizzle_control ≠ 1 ∧
      t.mip_datas.length = t.header.mipmap_count * t.header.tex_count ∧
      (∀ md ∈ t.mip_datas,
        md.texture_data =
            (blob.drop md.compression_info.compressed_offset).take
              md.compression_info.compressed_size ∧
          md.compression_info.compressed_offset + md.compression_info.compressed_size ≤
            blob.length ∧
          md.is_gdeflate = isGdeflateData md.texture_data) ∧
      validateAll dec t.header.depth t.header.mipmap_count t.header.tex_count
        t.mip_datas = .ok () := by
  unfold Tex.from_reader at hp
  split at hp
  · simp at hp
  · next header s1 heq1 =>
    split at hp
    · simp at hp
    · next mip_entries s2 heq2 =>
      split at hp
      · simp at hp
      · next compression_infos s3 heq3 =>
        split at hp
        · simp at hp
        · next hne =>
          split at hp
          · simp at hp
          · next mipmaps heq4 =>
            split at hp
            · simp at hp
            · next u hval =>
              simp only [Except.ok.injEq] at hp
              subst hp
              obtain ⟨hin1, _, _, _, hsc, _⟩ := texHeader_parse_inv heq1
              obtain ⟨hin2, helen⟩ := readMipEntries_inv heq2
              obtain ⟨hin3, hclen⟩ := readCompressionInfos_inv heq3
              obtain ⟨hms, hbounds⟩ := sliceMips_inv hsc heq4
              have hmslen : mipmaps.length = mip_entries.length := by
                rw [hms, List.length_map, List.length_zip, helen, hclen]
                exact Nat.min_self _
              have hec : mip_entries.length = compression_infos.length := by
                rw [helen, hclen]
              have he1 : (collectMipDatas mipmaps mip_entries compression_infos).map
                  (fun md => md.entry.as_bytes) = mip_entries.map MipEntry.as_bytes := by
                rw [show (fun md : MipData => md.entry.as_bytes) =
                    (MipEntry.as_bytes ∘ fun md : MipData => md.entry) from rfl,
                  ← List.map_map, collectMipDatas_map_entry hmslen hec]
              have hc1 : (collectMipDatas mipmaps mip_entries compression_infos).map
                  (fun md => md.compression_info.as_bytes) =
                  compression_infos.map CompressionInfo.as_bytes := by
                rw [show (fun md : MipData => md.compression_info.as_bytes) =
                    (CompressionInfo.as_bytes ∘ fun md : MipData =>
                      md.compression_info) from rfl,
                  ← List.map_map, collectMipDatas_map_ci hmslen hec]
              have hlen1 : (collectMipDatas mipmaps mip_entries
                  compression_infos).length = mip_entries.length := by
                calc (collectMipDatas mipmaps mip_entries compression_infos).length
                    = ((collectMipDatas mipmaps mip_entries
                        compression_infos).map (fun md => md.entry)).length := by
                      rw [List.length_map]
                  _ = mip_entries.length := by
                      rw [collectMipDatas_map_entry hmslen hec]
              refine ⟨s3, ?_, hsc, ?_, ?_, hval⟩
              · show input = _ ++ ((collectMipDatas mipmaps mip_entries
                    compression_infos).map (fun md => md.entry.as_bytes)).flatten ++
                    ((collectMipDatas mipmaps mip_entries compression_infos).map
                      (fun md => md.compression_info.as_bytes)).flatten ++ s3
                rw [he1, hc1, hin1, hin2, hin3]
                simp [List.append_assoc]
              · show (collectMipDatas mipmaps mip_entries compression_infos).length = _
                rw [hlen1, helen]
              · intro md hmd
                subst hms
                exact collect_mem_props hbounds hmd

/-- A group of mips that passes the inner validation loop: every mip's
uncompressed length matches the depth-scaled entry size at its mip level. -/
theorem validateGroup_ok {dec : Decoder} {depth : Nat} :
    ∀ {mds : List MipData} {i : Nat}, validateGroup dec depth i mds = .ok () →
      ∀ j (hj : j < mds.length), ∃ u,
        (mds.get ⟨j, hj⟩).uncompressed_data dec = .ok u ∧
        u.length = (mds.get ⟨j, hj⟩).entry.uncompressed_size *
          max 1 (depth >>> (i + j)) := by
  intro mds
  induction mds with
  | nil => intro i _ j hj; simp at hj
  | cons md rest ih =>
    intro i hp j hj
    unfold validateGroup at hp
    split at hp
    · simp at hp
    · next u hu =>
      split at hp
      · simp at hp
      · next hlen =>
        match j with
        | 0 =>
          exact ⟨u, hu, by simpa using hlen⟩
        | j + 1 =>
          have := ih hp j (by simpa using Nat.lt_of_succ_lt_succ hj)
          obtain ⟨u1, hu1, hl1⟩ := this
          refine ⟨u1, ?_, ?_⟩
          · simpa using hu1
          · rw [show i + (j + 1) = i + 1 + j by omega]
            simpa using hl1

/-- The full validation pass: with `mds.length = mipmap_count * tex_count`,
every mip at flat index `j` satisfies the size invariant for mip level
`j % mipmap_count`. -/
theorem validateAll_ok {dec : Decoder} {depth mc : Nat} :
    ∀ {tc : Nat} {mds : List MipData}, validateAll dec depth mc tc mds = .ok () →
      mds.length = mc * tc →
      ∀ j (hj : j < mds.length), ∃ u,
        (mds.get ⟨j, hj⟩).uncompressed_data dec = .ok u ∧
        u.length = (mds.get ⟨j, hj⟩).entry.uncompressed_size *
          max 1 (depth >>> (j % mc)) := by
  intro tc
  induction tc with
  | zero => intro mds _ hlen j hj; omega
  | succ tc ih =>
    intro mds hp hlen j hj
    unfold validateAll at hp
    split at hp
    · simp at hp
    · next u hgroup =>
      have hmc : 0 < mc := by
        by_contra h0
        have hmc0 : mc = 0 := by omega
        subst hmc0
        rw [Nat.zero_mul] at hlen
        omega
      by_cases hjmc : j < mc
      · have hjt : j < (mds.take mc).length := by
          simp only [List.length_take]
          omega
        have := validateGroup_ok (by
          cases u
          exact hgroup) j hjt
        obtain ⟨u1, hu1, hl1⟩ := this
        have hget : (mds.take mc).get ⟨j, hjt⟩ = mds.get ⟨j, hj⟩ := by
          simp only [List.get_eq_getElem, List.getElem_take]
        rw [hget] at hu1 hl1
        refine ⟨u1, hu1, ?_⟩
        rw [Nat.mod_eq_of_lt hjmc]
        simpa using hl1
      · have hjd : j - mc < (mds.drop mc).length := by
          simp only [List.length_drop]
          omega
        have hdlen : (mds.drop mc).length = mc * tc := by
          simp only [List.length_drop]
          rw [hlen, Nat.mul_succ]
          omega
        have := ih hp hdlen (j - mc) hjd
        obtain ⟨u1, hu1, hl1⟩ := this
        have hget : (mds.drop mc).get ⟨j - mc, hjd⟩ = mds.get ⟨j, hj⟩ := by
          have hidx : mc + (j - mc) = j := by omega
          simp only [List.get_eq_getElem, List.getElem_drop, hidx]
        rw [hget] at hu1 hl1
        refine ⟨u1, hu1, ?_⟩
        have hmod : (j - mc) % mc = j % mc := by
          conv_rhs => rw [show j = j - mc + mc by omega]
          rw [Nat.add_mod_right]
        rw [hmod] at hl1
        exact hl1

theorem TileStream.from_inv {s : Bytes} {ts : TileStream}
    (hp : TileStream.from s = .ok ts) :
    ts.id < 2 ^ 8 ∧ ts.magic < 2 ^ 8 ∧ ts.num_tiles < 2 ^ 16 ∧
      ts.last_tile_size < 2 ^ 18 := by
  unfold TileStream.from at hp
  rw [pbind_ok] at hp
  obtain ⟨id, s1, h1, hp⟩ := hp
  obtain ⟨_, hid⟩ := readU8_ok h1
  rw [pbind_ok] at hp
  obtain ⟨magic, s2, h2, hp⟩ := hp
  obtain ⟨_, hmg⟩ := readU8_ok h2
  rw [pbind_ok] at hp
  obtain ⟨num_tiles, s3, h3, hp⟩ := hp
  obtain ⟨_, hnt⟩ := readU16_ok h3
  rw [pbind_ok] at hp
  obtain ⟨flags, s4, h4, hp⟩ := hp
  simp only [Except.ok.injEq] at hp
  subst hp
  refine ⟨hid, hmg, hnt, ?_⟩
  show flags / 2 ^ 2 % 2 ^ 18 < 2 ^ 18
  exact Nat.mod_lt _ (by decide)

/-- A successful decompression never produces `2^32` bytes or more: the
output length is `num_tiles * 64KiB` at most, with `num_tiles` a `u16`. -/
theorem decompress_out_lt {dec : Decoder} {in_data out : Bytes}
    (hp : GDfDecompressor.decompress dec in_data = .ok out) :
    out.length < 2 ^ 32 := by
  obtain ⟨ts, hts, _, hlen⟩ := decompress_ok_length hp
  obtain ⟨_, _, hnt, _⟩ := TileStream.from_inv hts
  rw [hlen]
  unfold TileStream.get_uncompressed_size
  unfold KDEFAULT_TILE_SIZE
  omega

/-- Induction invariant for the `batch_decompress` loop: on success the
output list has the same length; every output mip's `compressed_offset` is
the base offset plus the sum of the preceding output `compressed_size`s;
originally tile-compressed mips carry their decompression output with
`compressed_size` rewritten and the flag cleared; raw mips keep their data
and size and stay uncompressed. -/
theorem batchGo_ok {dec : Decoder} :
    ∀ {mds : List MipData} {curr : Nat} {ms : List MipData},
      batchGo dec curr mds = .ok ms →
      ms.length = mds.length ∧
      ∀ j (hj : j < mds.length) (hj2 : j < ms.length),
        ((ms.get ⟨j, hj2⟩).compression_info.compressed_offset =
          curr + ((ms.take j).map
            (fun md => md.compression_info.compressed_size)).sum) ∧
        (ms.get ⟨j, hj2⟩).entry = (mds.get ⟨j, hj⟩).entry ∧
        ((mds.get ⟨j, hj⟩).is_gdeflate = true →
          ∃ out, GDfDecompressor.decompress dec
              (mds.get ⟨j, hj⟩).texture_data = .ok out ∧
            (ms.get ⟨j, hj2⟩).texture_data = out ∧
            (ms.get ⟨j, hj2⟩).compression_info.compressed_size =
              out.length % 2 ^ 32 ∧
            (ms.get ⟨j, hj2⟩).is_gdeflate = false) ∧
        ((mds.get ⟨j, hj⟩).is_gdeflate = false →
          (ms.get ⟨j, hj2⟩).texture_data = (mds.get ⟨j, hj⟩).texture_data ∧
          (ms.get ⟨j, hj2⟩).compression_info.compressed_size =
            (mds.get ⟨j, hj⟩).compression_info.compressed_size ∧
          (ms.get ⟨j, hj2⟩).is_gdeflate = false) := by
  intro mds
  induction mds with
  | nil =>
    intro curr ms hp
    simp only [batchGo, Except.ok.injEq] at hp
    subst hp
    exact ⟨rfl, fun j hj => by simp at hj⟩
  | cons md rest ih =>
    intro curr ms hp
    unfold batchGo at hp
    split at hp
    · next hraw =>
      -- not compressed
      have hg : md.is_gdeflate = false := by
        simp only [MipData.is_compressed] at hraw
        simpa using hraw
      split at hp
      · next hadd =>
        split at hp
        · simp at hp
        · next ms1 hrec =>
          simp only [Except.ok.injEq] at hp
          subst hp
          obtain ⟨hlen1, hfacts⟩ := ih hrec
          refine ⟨by simpa using hlen1, ?_⟩
          intro j hj hj2
          match j with
          | 0 =>
            refine ⟨by simp, by simp, ?_, ?_⟩
            · intro hcon
              simp only [List.get] at hcon
              rw [hg] at hcon
              exact absurd hcon (by simp)
            · intro _
              exact ⟨rfl, rfl, by simpa using hg⟩
          | j + 1 =>
            have hj' : j < rest.length := by simpa using Nat.lt_of_succ_lt_succ hj
            have hj2' : j < ms1.length := by simpa using Nat.lt_of_succ_lt_succ hj2
            obtain ⟨hoff, hent, hcomp, hrawc⟩ := hfacts j hj' hj2'
            refine ⟨?_, hent, hcomp, hrawc⟩
            simp only [List.get, List.take, List.map_cons, List.sum_cons]
            rw [hoff]
            omega
      · simp at hp
    · next hcomp =>
      have hg : md.is_gdeflate = true := by
        simp only [MipData.is_compressed] at hcomp
        simpa using hcomp
      split at hp
      · simp at hp
      · next out_data hdec =>
        split at hp
        · next hadd =>
          split at hp
          · simp at hp
          · next ms1 hrec =>
            simp only [Except.ok.injEq] at hp
            subst hp
            obtain ⟨hlen1, hfacts⟩ := ih hrec
            refine ⟨by simpa using hlen1, ?_⟩
            intro j hj hj2
            match j with
            | 0 =>
              refine ⟨by simp, by simp, ?_, ?_⟩
              · intro _
                exact ⟨out_data, hdec, rfl, rfl, rfl⟩
              · intro hcon
                simp only [List.get] at hcon
                rw [hg] at hcon
                exact absurd hcon (by simp)
            | j + 1 =>
              have hj' : j < rest.length := by simpa using Nat.lt_of_succ_lt_succ hj
              have hj2' : j < ms1.length := by simpa using Nat.lt_of_succ_lt_succ hj2
              obtain ⟨hoff, hent, hcompc, hrawc⟩ := hfacts j hj' hj2'
              refine ⟨?_, hent, hcompc, hrawc⟩
              simp only [List.get, List.take, List.map_cons, List.sum_cons]
              rw [hoff]
              omega
        · simp at hp

/-- C1 (counterexample): `cexInput` parses successfully, no mip is
tile-compressed, yet `as_bytes` differs from the input — the slices of a
parsed file need not tile its blob, so parse-then-serialize is not always
byte-identical. -/
theorem C1_parse_serialize_not_always_id :
    Tex.from_reader trivDecoder cexInput = .ok cexTex ∧
      (∀ md ∈ cexTex.mip_datas, md.is_gdeflate = false) ∧
      cexTex.as_bytes ≠ cexInput := by
  refine ⟨by rfl, by decide, by decide⟩

/-- C1 (amended): for every byte sequence that `Tex::from_reader` parses
successfully into a `Tex` in which no mip is tile-compressed, and whose
`CompressionInfo` records tile the data blob contiguously from offset 0
(each `compressed_offset` equals the sum of the preceding `compressed_size`s
and the serialized length matches the input length, i.e. the blob has no
bytes outside the slices), `Tex::as_bytes` returns a byte sequence identical
to the original input: header, then the full `MipEntry` table, then the full
`CompressionInfo` table, then each mip's raw bytes in table order. -/
theorem C1_parse_serialize_roundtrip {dec : Decoder} {input : Bytes} {t : Tex}
    (hp : Tex.from_reader dec input = .ok t)
    (_hraw : ∀ md ∈ t.mip_datas, md.is_gdeflate = false)
    (htile : tilesFrom 0 (t.mip_datas.map (fun md => md.compression_info)) = true)
    (hlen : t.as_bytes.length = input.length) :
    t.as_bytes = input := by
  obtain ⟨blob, hdecomp, hsc, hN, hmips, hval⟩ := tex_parse_inv hp
  -- each stored mip is the exact slice its CompressionInfo names
  have hmap : t.mip_datas.map (fun md => md.texture_data) =
      (t.mip_datas.map (fun md => md.compression_info)).map
        (fun ci => (blob.drop ci.compressed_offset).take ci.compressed_size) := by
    rw [List.map_map]
    exact List.map_congr_left (fun md hmd => (hmips md hmd).1)
  -- each slice has exactly `compressed_size` bytes
  have hsizes : ∀ md ∈ t.mip_datas,
      md.texture_data.length = md.compression_info.compressed_size := by
    intro md hmd
    obtain ⟨hdata, hbound, _⟩ := hmips md hmd
    rw [hdata, List.length_take, List.length_drop]
    omega
  -- hence the slices' sizes sum to the whole blob's length
  have hflatlen : ((t.mip_datas.map (fun md => md.texture_data)).flatten).length =
      blob.length := by
    have h1 := congrArg List.length hdecomp
    have h2 : t.as_bytes.length =
        t.header.as_bytes.length +
          ((t.mip_datas.map (fun md => md.entry.as_bytes)).flatten.length +
            ((t.mip_datas.map
              (fun md => md.compression_info.as_bytes)).flatten.length +
              (t.mip_datas.map (fun md => md.texture_data)).flatten.length)) := by
      simp [Tex.as_bytes, List.length_append]
    simp only [List.length_append] at h1
    omega
  have hsum : ((t.mip_datas.map (fun md => md.compression_info)).map
      (fun ci => ci.compressed_size)).sum = blob.length := by
    rw [← hflatlen]
    rw [List.length_flatten]
    rw [List.map_map, List.map_map]
    congr 1
    exact List.map_congr_left (fun md hmd => by
      simp only [Function.comp]
      exact (hsizes md hmd).symm)
  have hflat : ((t.mip_datas.map (fun md => md.compression_info)).map
      (fun ci => (blob.drop ci.compressed_offset).take ci.compressed_size)).flatten =
      blob := by
    have := @flatten_slices blob
      (t.mip_datas.map (fun md => md.compression_info)) 0 htile
      (by rw [hsum]; omega) (Nat.zero_le _)
    simpa using this
  show t.as_bytes = input
  rw [Tex.as_bytes, hmap, hflat, hdecomp]

/-- C1 witness: the amended round trip holds at the concrete file
`rawInput`. -/
theorem C1_parse_serialize_roundtrip_witness :
    Tex.from_reader trivDecoder rawInput = .ok rawTex ∧
      (∀ md ∈ rawTex.mip_datas, md.is_gdeflate = false) ∧
      tilesFrom 0 (rawTex.mip_datas.map (fun md => md.compression_info)) = true ∧
      rawTex.as_bytes.length = rawInput.length ∧
      rawTex.as_bytes = rawInput := by
  have h1 : Tex.from_reader trivDecoder rawInput = .ok rawTex := by rfl
  have h2 : ∀ md ∈ rawTex.mip_datas, md.is_gdeflate = false := by decide
  have h3 : tilesFrom 0 (rawTex.mip_datas.map (fun md => md.compression_info)) = true := by
    decide
  have h4 : rawTex.as_bytes.length = rawInput.length := by decide
  exact ⟨h1, h2, h3, h4, C1_parse_serialize_roundtrip h1 h2 h3 h4⟩

/-- C2: whenever `GDfDecompressor::decompress` succeeds, the returned vector
has exactly `num_tiles * 65536` bytes, reduced by `65536 - last_tile_size`
when `last_tile_size != 0`, where both fields come from the payload's 8-byte
framing header (`last_tile_size` being the 18-bit field of the packed flags
word). -/
theorem C2_decompress_length {dec : Decoder} {in_data out : Bytes}
    (hp : GDfDecompressor.decompress dec in_data = .ok out) :
    ∃ ts, TileStream.from in_data = .ok ts ∧
      out.length = ts.num_tiles * 65536 -
        (if ts.last_tile_size ≠ 0 then 65536 - ts.last_tile_size else 0) := by
  obtain ⟨ts, hts, _, hlen⟩ := decompress_ok_length hp
  refine ⟨ts, hts, ?_⟩
  rw [hlen]
  unfold TileStream.get_uncompressed_size KDEFAULT_TILE_SIZE
  by_cases h0 : ts.last_tile_size = 0
  · rw [if_pos h0, if_neg (by simpa using h0)]
  · rw [if_neg h0, if_pos h0]

/-- C2 witness: the 1-tile payload with `last_tile_size = 100` decompresses
(under an always-succeeding decode oracle) to exactly 100 bytes. -/
theorem C2_decompress_length_witness :
    GDfDecompressor.decompress emptyDecoder gdfPayload =
        .ok (List.replicate 100 (0 : Byte)) ∧
      ∃ ts, TileStream.from gdfPayload = .ok ts ∧
        (List.replicate 100 (0 : Byte)).length = ts.num_tiles * 65536 -
          (if ts.last_tile_size ≠ 0 then 65536 - ts.last_tile_size else 0) := by
  have h1 : GDfDecompressor.decompress emptyDecoder gdfPayload =
      .ok (List.replicate 100 (0 : Byte)) := by rfl
  exact ⟨h1, C2_decompress_length h1⟩

/-- C3: every `Tex` returned by `Tex::from_reader` satisfies, with mips
texture-major, that the mip at flat index `j` (0-based level
`j % mipmap_count` within its texture) decompresses to exactly
`uncompressed_size * max(1, depth >> level)` bytes; and a mip violating the
size check makes the validation loop return exactly the `Internal`
size-mismatch error, so no `Tex` is returned. -/
theorem C3_mip_size_invariant :
    (∀ (dec : Decoder) (input : Bytes) (t : Tex),
      Tex.from_reader dec input = .ok t →
      ∀ j (hj : j < t.mip_datas.length), ∃ u,
        (t.mip_datas.get ⟨j, hj⟩).uncompressed_data dec = .ok u ∧
        u.length = (t.mip_datas.get ⟨j, hj⟩).entry.uncompressed_size *
          max 1 (t.header.depth >>> (j % t.header.mipmap_count))) ∧
    (∀ (dec : Decoder) (depth img_mip_idx : Nat) (md : MipData)
        (rest : List MipData) (u : Bytes),
      md.uncompressed_data dec = .ok u →
      u.length ≠ md.entry.uncompressed_size * max 1 (depth >>> img_mip_idx) →
      validateGroup dec depth img_mip_idx (md :: rest) =
        .error (.err (.Internal
          "Mipmap data size does not match mipmap entry size"))) := by
  constructor
  · intro dec input t hp j hj
    obtain ⟨blob, _, _, hN, _, hval⟩ := tex_parse_inv hp
    exact validateAll_ok hval hN j hj
  · intro dec depth img_mip_idx md rest u hu hne
    unfold validateGroup
    rw [hu]
    simp only [if_pos hne]

/-- C3 witness: the invariant at the parsed `rawInput` (mip 0 has 1 byte,
`1 * max(1, 0 >> 0) = 1`), and the `Internal` error on a concrete mip whose
1-byte data contradicts its 2-byte entry. -/
theorem C3_mip_size_invariant_witness :
    (Tex.from_reader trivDecoder rawInput = .ok rawTex ∧
      ∃ u, (rawTex.mip_datas.get ⟨0, by decide⟩).uncompressed_data trivDecoder =
          .ok u ∧
        u.length = (rawTex.mip_datas.get ⟨0, by decide⟩).entry.uncompressed_size *
          max 1 (rawTex.header.depth >>> (0 % rawTex.header.mipmap_count))) ∧
    (violatingMip.uncompressed_data trivDecoder = .ok [0xAA] ∧
      ([0xAA] : Bytes).length ≠
        violatingMip.entry.uncompressed_size * max 1 ((0 : Nat) >>> 0) ∧
      validateGroup trivDecoder 0 0 [violatingMip] =
        .error (.err (.Internal
          "Mipmap data size does not match mipmap entry size"))) := by
  have h1 : Tex.from_reader trivDecoder rawInput = .ok rawTex := by rfl
  have h2 : violatingMip.uncompressed_data trivDecoder = .ok [0xAA] := by rfl
  have h3 : ([0xAA] : Bytes).length ≠
      violatingMip.entry.uncompressed_size * max 1 ((0 : Nat) >>> 0) := by decide
  refine ⟨⟨h1, C3_mip_size_invariant.1 trivDecoder rawInput rawTex h1 0 (by decide)⟩,
    h2, h3, C3_mip_size_invariant.2 trivDecoder 0 0 violatingMip [] [0xAA] h2 h3⟩

/-- C4: any input of at least 4 bytes whose first 4 bytes differ from the
fixed magic `54 45 58 00` makes `TexHeader::from_reader` (and hence
`Tex::from_reader`) fail with exactly `NotTexFile` — no other error can be
reported for such an input. -/
theorem C4_bad_magic_not_tex_file {input : Bytes} (h4 : 4 ≤ input.length)
    (hm : input.take 4 ≠ texMagic) :
    TexHeader.from_reader input = .error (.err .NotTexFile) ∧
      ∀ dec : Decoder, Tex.from_reader dec input = .error (.err .NotTexFile) := by
  have hh : TexHeader.from_reader input = .error (.err .NotTexFile) := by
    unfold TexHeader.from_reader
    rw [show readBytes 4 input = .ok (input.take 4, input.drop 4) from by
      unfold readBytes
      rw [if_pos h4]]
    simp only [pbind]
    rw [if_pos hm]
  refine ⟨hh, fun dec => ?_⟩
  unfold Tex.from_reader
  rw [hh]

/-- C4 witness: four zero bytes. -/
theorem C4_bad_magic_not_tex_file_witness :
    TexHeader.from_reader [0, 0, 0, 0] = .error (.err .NotTexFile) ∧
      Tex.from_reader trivDecoder [0, 0, 0, 0] = .error (.err .NotTexFile) := by
  have h := @C4_bad_magic_not_tex_file [0, 0, 0, 0] (by decide) (by decide)
  exact ⟨h.1, h.2 trivDecoder⟩

/-- C5: a successfully parsed header whose `version > 11` and
`version != 190820018` took the branch reading `tex_count` (input byte 14)
then `mipmap_header_size` (input byte 15), deriving
`mipmap_count = mipmap_header_size / 16`; any other version reads
`mipmap_count` (byte 14) then `tex_count` (byte 15) directly. -/
theorem C5_version_branch {s : Bytes} {h : TexHeader} {r : Bytes}
    (hp : TexHeader.from_reader s = .ok (h, r)) :
    ((h.version > 11 ∧ h.version ≠ 190820018) →
      (s.get? 14).map Fin.val = some h.tex_count ∧
      (s.get? 15).map Fin.val = some h.mipmap_header_size ∧
      h.mipmap_count = h.mipmap_header_size / 16) ∧
    (¬(h.version > 11 ∧ h.version ≠ 190820018) →
      (s.get? 14).map Fin.val = some h.mipmap_count ∧
      (s.get? 15).map Fin.val = some h.tex_count) := by
  obtain ⟨hs, _, hderive, _, _, hmc, htc, hmhs⟩ := texHeader_parse_inv hp
  subst hs
  constructor
  · intro hcond
    refine ⟨?_, ?_, hderive hcond⟩
    · simp [TexHeader.as_bytes, if_pos hcond, texMagic, encodeU32, encodeU16,
        List.get?_append, Byte.ofNat, Nat.mod_eq_of_lt htc]
      omega
    · simp [TexHeader.as_bytes, if_pos hcond, texMagic, encodeU32, encodeU16,
        List.get?_append, Byte.ofNat, Nat.mod_eq_of_lt hmhs]
      omega
  · intro hcond
    constructor
    · simp [TexHeader.as_bytes, if_neg hcond, texMagic, encodeU32, encodeU16,
        List.get?_append, Byte.ofNat, Nat.mod_eq_of_lt hmc]
      omega
    · simp [TexHeader.as_bytes, if_neg hcond, texMagic, encodeU32, encodeU16,
        List.get?_append, Byte.ofNat, Nat.mod_eq_of_lt htc]
      omega

/-- C5 witness: the version-12 header takes the
`tex_count/mipmap_header_size` branch; bytes 14/15 are `tex_count = 1` and
`mipmap_header_size = 16`, and `mipmap_count = 16 / 16 = 1`. -/
theorem C5_version_branch_witness :
    TexHeader.from_reader hdr12Input = .ok (hdr12Header, []) ∧
      (hdr12Header.version > 11 ∧ hdr12Header.version ≠ 190820018) ∧
      (hdr12Input.get? 14).map Fin.val = some hdr12Header.tex_count ∧
      (hdr12Input.get? 15).map Fin.val = some hdr12Header.mipmap_header_size ∧
      hdr12Header.mipmap_count = hdr12Header.mipmap_header_size / 16 := by
  have h1 : TexHeader.from_reader hdr12Input = .ok (hdr12Header, []) := by rfl
  have h2 : hdr12Header.version > 11 ∧ hdr12Header.version ≠ 190820018 := by decide
  obtain ⟨ha, hb, hc⟩ := (C5_version_branch h1).1 h2
  exact ⟨h1, h2, ha, hb, hc⟩

/-- C6: after a successful `batch_decompress`, each mip's
`compressed_offset` is the sum of the post-decompression `compressed_size`s
of all preceding mips in table order (the first gets 0); every previously
tile-compressed mip has `compressed_size` rewritten to its decompressed data
length and `is_compressed() == false`; raw mips keep their data and
`compressed_size` unchanged. -/
theorem C6_batch_decompress_offsets {dec : Decoder} {t t' : Tex}
    (hp : Tex.batch_decompress dec t = .ok t') :
    t'.mip_datas.length = t.mip_datas.length ∧
    ∀ j (hj : j < t.mip_datas.length) (hj2 : j < t'.mip_datas.length),
      ((t'.mip_datas.get ⟨j, hj2⟩).compression_info.compressed_offset =
        ((t'.mip_datas.take j).map
          (fun md => md.compression_info.compressed_size)).sum) ∧
      ((t.mip_datas.get ⟨j, hj⟩).is_gdeflate = true →
        (t'.mip_datas.get ⟨j, hj2⟩).compression_info.compressed_size =
          (t'.mip_datas.get ⟨j, hj2⟩).texture_data.length ∧
        (t'.mip_datas.get ⟨j, hj2⟩).is_compressed = false) ∧
      ((t.mip_datas.get ⟨j, hj⟩).is_gdeflate = false →
        (t'.mip_datas.get ⟨j, hj2⟩).texture_data =
          (t.mip_datas.get ⟨j, hj⟩).texture_data ∧
        (t'.mip_datas.get ⟨j, hj2⟩).compression_info.compressed_size =
          (t.mip_datas.get ⟨j, hj⟩).compression_info.compressed_size ∧
        (t'.mip_datas.get ⟨j, hj2⟩).is_compressed = false) := by
  unfold Tex.batch_decompress at hp
  split at hp
  · simp at hp
  · next ms hgo =>
    simp only [Except.ok.injEq] at hp
    subst hp
    obtain ⟨hlen, hfacts⟩ := batchGo_ok hgo
    refine ⟨hlen, ?_⟩
    intro j hj hj2
    obtain ⟨hoff, _, hcomp, hraw⟩ := hfacts j hj hj2
    refine ⟨by simpa using hoff, ?_, ?_⟩
    · intro hg
      obtain ⟨out, hdec, hdata, hsize, hflag⟩ := hcomp hg
      have hlt : out.length < 2 ^ 32 := decompress_out_lt hdec
      refine ⟨?_, ?_⟩
      · rw [hsize, hdata, Nat.mod_eq_of_lt hlt]
      · show (ms.get ⟨j, hj2⟩).is_gdeflate = false
        exact hflag
    · intro hg
      obtain ⟨hdata, hsize, hflag⟩ := hraw hg
      exact ⟨hdata, hsize, hflag⟩

/-- C6 witness: decompress-all on the (already raw) parsed `rawInput`
returns the same `Tex`, and the invariant holds at mip 0. -/
theorem C6_batch_decompress_offsets_witness :
    Tex.batch_decompress trivDecoder rawTex = .ok rawTex ∧
      (rawTex.mip_datas.get ⟨0, by decide⟩).compression_info.compressed_offset =
        ((rawTex.mip_datas.take 0).map
          (fun md => md.compression_info.compressed_size)).sum ∧
      ((rawTex.mip_datas.get ⟨0, by decide⟩).is_gdeflate = false →
        (rawTex.mip_datas.get ⟨0, by decide⟩).texture_data =
          (rawTex.mip_datas.get ⟨0, by decide⟩).texture_data ∧
        (rawTex.mip_datas.get ⟨0, by decide⟩).compression_info.compressed_size =
          (rawTex.mip_datas.get ⟨0, by decide⟩).compression_info.compressed_size ∧
        (rawTex.mip_datas.get ⟨0, by decide⟩).is_compressed = false) := by
  have h1 : Tex.batch_decompress trivDecoder rawTex = .ok rawTex := by rfl
  have h2 := (C6_batch_decompress_offsets h1).2 0 (by decide) (by decide)
  exact ⟨h1, h2.1, h2.2.2⟩

/-- C7: `decompress` fails with exactly `BadData` whenever the payload's
8-byte framing header has `id != magic XOR 0xFF` or `id != 4`; `is_valid`
(the gate to tile decoding) holds exactly when both conditions do. -/
theorem C7_invalid_header_bad_data {dec : Decoder} {payload : Bytes}
    {ts : TileStream} (hts : TileStream.from payload = .ok ts)
    (hbad : ts.id ≠ ts.magic ^^^ 0xFF ∨ ts.id ≠ K_GDEFLATE_ID) :
    GDfDecompressor.decompress dec payload =
        .error (.err (.GDeflate (.Decompression .BadData))) ∧
      (ts.is_valid = true ↔
        (ts.id = ts.magic ^^^ 0xFF ∧ ts.id = K_GDEFLATE_ID)) := by
  have hiff : ts.is_valid = true ↔
      (ts.id = ts.magic ^^^ 0xFF ∧ ts.id = K_GDEFLATE_ID) := by
    simp [TileStream.is_valid]
  refine ⟨?_, hiff⟩
  have hinvalid : ¬ ts.is_valid = true := by
    rw [hiff]
    rcases hbad with hb | hb
    · exact fun hc => hb hc.1
    · exact fun hc => hb hc.2
  simp only [GDfDecompressor.decompress, hts]
  rw [if_pos (by simp [hinvalid])]

/-- C7 witness: `badPayload` has `id = 5`, so `id != 4` and decompression
reports `BadData` under any decode oracle. -/
theorem C7_invalid_header_bad_data_witness :
    ∃ ts, TileStream.from badPayload = .ok ts ∧
      ts.id ≠ K_GDEFLATE_ID ∧
      GDfDecompressor.decompress trivDecoder badPayload =
        .error (.err (.GDeflate (.Decompression .BadData))) := by
  have h1 : TileStream.from badPayload =
      .ok { id := 5, magic := 0xFB, num_tiles := 0, tile_size_idx := 0,
            last_tile_size := 0, reserv1 := 0 } := by rfl
  have h2 : (5 : Nat) ≠ K_GDEFLATE_ID := by decide
  exact ⟨_, h1, h2, (C7_invalid_header_bad_data h1 (Or.inr h2)).1⟩

/-- C8: for every input accepted by `TexHeader::from_reader`, `as_bytes` of
the parsed header reproduces exactly the header bytes consumed from the
input (the version-conditional field sets included): the input is the
serialized header followed by the unconsumed remainder. -/
theorem C8_header_roundtrip {s : Bytes} {h : TexHeader} {r : Bytes}
    (hp : TexHeader.from_reader s = .ok (h, r)) :
    s = h.as_bytes ++ r := by
  exact (texHeader_parse_inv hp).1

/-- C8 witness: the version-12 header input round trips exactly. -/
theorem C8_header_roundtrip_witness :
    TexHeader.from_reader hdr12Input = .ok (hdr12Header, []) ∧
      hdr12Input = hdr12Header.as_bytes ++ [] := by
  have h1 : TexHeader.from_reader hdr12Input = .ok (hdr12Header, []) := by rfl
  exact ⟨h1, C8_header_roundtrip h1⟩

/-- C9: `TexHeader::from_reader` never returns a header with
`swizzle_control == 1`, so the zero-padding branch of the mip-slicing loop is
unreachable: for every mip of a successfully parsed `Tex`, the computed
padding `if swizzle_control != 1 { 0 } else { uncompressed_size -
scanline_length }` is 0 and the stored bytes are exactly the
`compressed_size`-byte slice, with no padding appended. -/
theorem C9_no_swizzle_no_padding :
    (∀ (s : Bytes) (h : TexHeader) (r : Bytes),
      TexHeader.from_reader s = .ok (h, r) → h.swizzle_control ≠ 1) ∧
    (∀ (dec : Decoder) (input : Bytes) (t : Tex),
      Tex.from_reader dec input = .ok t →
      t.header.swizzle_control ≠ 1 ∧
      ∀ md ∈ t.mip_datas,
        (if t.header.swizzle_control ≠ 1 then 0
         else md.entry.uncompressed_size - md.entry.scanline_length) = 0 ∧
        md.texture_data.length = md.compression_info.compressed_size) := by
  constructor
  · intro s h r hp
    exact (texHeader_parse_inv hp).2.2.2.2.1
  · intro dec input t hp
    obtain ⟨blob, _, hsc, _, hmips, _⟩ := tex_parse_inv hp
    refine ⟨hsc, ?_⟩
    intro md hmd
    obtain ⟨hdata, hbound, _⟩ := hmips md hmd
    refine ⟨by rw [if_pos hsc], ?_⟩
    rw [hdata, List.length_take, List.length_drop]
    omega

/-- C9 witness: at the concrete parse of `rawInput`, `swizzle_control` is
not 1 and mip 0 got no padding. -/
theorem C9_no_swizzle_no_padding_witness :
    TexHeader.from_reader hdr12Input = .ok (hdr12Header, []) ∧
      hdr12Header.swizzle_control ≠ 1 ∧
      Tex.from_reader trivDecoder rawInput = .ok rawTex ∧
      rawTex.header.swizzle_control ≠ 1 ∧
      ∀ md ∈ rawTex.mip_datas,
        (if rawTex.header.swizzle_control ≠ 1 then 0
         else md.entry.uncompressed_size - md.entry.scanline_length) = 0 ∧
        md.texture_data.length = md.compression_info.compressed_size := by
  have h1 : TexHeader.from_reader hdr12Input = .ok (hdr12Header, []) := by rfl
  have h2 : Tex.from_reader trivDecoder rawInput = .ok rawTex := by rfl
  have h3 := C9_no_swizzle_no_padding.2 trivDecoder rawInput rawTex h2
  exact ⟨h1, C9_no_swizzle_no_padding.1 hdr12Input hdr12Header [] h1, h2, h3.1, h3.2⟩

/-- C10: every mip of a parsed `Tex` stores exactly
`compressed_size` bytes (`texture_data.len() == compressed_size`), and
`batch_decompress` preserves this invariant: tile-compressed mips get
`compressed_size` updated to the new data length, raw mips keep both
unchanged. -/
theorem C10_size_field_invariant :
    (∀ (dec : Decoder) (input : Bytes) (t : Tex),
      Tex.from_reader dec input = .ok t →
      ∀ md ∈ t.mip_datas,
        md.texture_data.length = md.compression_info.compressed_size) ∧
    (∀ (dec : Decoder) (t t' : Tex),
      Tex.batch_decompress dec t = .ok t' →
      (∀ md ∈ t.mip_datas,
        md.texture_data.length = md.compression_info.compressed_size) →
      ∀ md ∈ t'.mip_datas,
        md.texture_data.length = md.compression_info.compressed_size) := by
  constructor
  · intro dec input t hp md hmd
    obtain ⟨blob, _, _, _, hmips, _⟩ := tex_parse_inv hp
    obtain ⟨hdata, hbound, _⟩ := hmips md hmd
    rw [hdata, List.length_take, List.length_drop]
    omega
  · intro dec t t' hp hinv md hmd
    unfold Tex.batch_decompress at hp
    split at hp
    · simp at hp
    · next ms hgo =>
      simp only [Except.ok.injEq] at hp
      subst hp
      obtain ⟨hlen, hfacts⟩ := batchGo_ok hgo
      obtain ⟨⟨j, hj2⟩, hget⟩ := List.mem_iff_get.mp hmd
      have hj : j < t.mip_datas.length := by
        simp only at hj2
        omega
      obtain ⟨_, _, hcomp, hraw⟩ := hfacts j hj hj2
      subst hget
      by_cases hg : (t.mip_datas.get ⟨j, hj⟩).is_gdeflate = true
      · obtain ⟨out, hdec, hdata, hsize, _⟩ := hcomp hg
        rw [hdata, hsize, Nat.mod_eq_of_lt (decompress_out_lt hdec)]
      · obtain ⟨hdata, hsize, _⟩ := hraw (by simpa using hg)
        rw [hdata, hsize]
        exact hinv _ (List.get_mem _ _ hj)

/-- C10 witness: the invariant at the parsed `rawInput`, preserved by the
(no-op) decompress-all. -/
theorem C10_size_field_invariant_witness :
    Tex.from_reader trivDecoder rawInput = .ok rawTex ∧
      (∀ md ∈ rawTex.mip_datas,
        md.texture_data.length = md.compression_info.compressed_size) ∧
      Tex.batch_decompress trivDecoder rawTex = .ok rawTex ∧
      (∀ md ∈ rawTex.mip_datas,
        md.texture_data.length = md.compression_info.compressed_size) := by
  have h1 : Tex.from_reader trivDecoder rawInput = .ok rawTex := by rfl
  have h2 := C10_size_field_invariant.1 trivDecoder rawInput rawTex h1
  have h3 : Tex.batch_decompress trivDecoder rawTex = .ok rawTex := by rfl
  exact ⟨h1, h2, h3, C10_size_field_invariant.2 trivDecoder rawTex rawTex h3 h2⟩
